import Mathlib

/-!
# ci-service/pkg/watermill: a shallow embedding of `watermill.go`

The Go file wires a Kafka publisher and subscriber into a watermill router,
registers one processing function, starts a synthetic producer and exposes two
helpers (`NewULID`, `KafkaProduce`).  The functions of the file are embedded
as Lean functions of the same name.  What the file calls but does not define
(the broker, `encoding/json`, `time`, the id generators) is the environment:
the broker and generators are explicit inputs, and the two library codecs the
payloads go through are modelled for the two payload struct types.
-/

namespace Watermill

/-! ## Basic Go values -/

/-- Go strings and byte slices, as sequences of characters. -/
abbrev GoString := List Char

/-- A `[]byte` payload. -/
abbrev Bytes := List Char

/-- The errors the embedded code can meet. -/
inductive GoError where
  | syntaxError
  | unmarshalTypeError
  | timeParseError
  | marshalerError
  | transport (code : Nat)
  | bigTime
  deriving DecidableEq, Repr

/-- How a Go call without a result-error pair ends: it returns, or it panics. -/
inductive Outcome (α : Type) where
  | returned (a : α)
  | panicked (e : GoError)
  deriving DecidableEq, Repr

/-- Smallest value of Go's `int` on a 64-bit platform. -/
def minInt : Int := -9223372036854775808

/-- Largest value of Go's `int` on a 64-bit platform. -/
def maxInt : Int := 9223372036854775807

/-- Go's `int` (64 bits): the integers between `minInt` and `maxInt`. -/
structure GoInt where
  val : Int
  lo : minInt ≤ val
  hi : val ≤ maxInt
  deriving DecidableEq

/-- Two's-complement reduction of an integer into the range of `int`. -/
def wrapInt (x : Int) : Int := (x + 9223372036854775808) % 18446744073709551616 - 9223372036854775808

/-- The `int` an arithmetic result is stored as. -/
def GoInt.wrap (x : Int) : GoInt :=
  ⟨wrapInt x, by unfold wrapInt minInt; omega, by unfold wrapInt maxInt; omega⟩

/-- The statement `i++` on an `int`. -/
def GoInt.incr (i : GoInt) : GoInt := GoInt.wrap (i.val + 1)

/-- The `int` zero value. -/
def GoInt.zero : GoInt := ⟨0, by decide, by decide⟩

/-! ## Decimal text (`strconv`) -/

/-- The character of one decimal digit. -/
def digitChar (d : Nat) : Char :=
  match d with
  | 0 => '0' | 1 => '1' | 2 => '2' | 3 => '3' | 4 => '4'
  | 5 => '5' | 6 => '6' | 7 => '7' | 8 => '8' | _ => '9'

/-- The value of a decimal digit character. -/
def digitVal (c : Char) : Nat := c.toNat - 48

/-- Whether a character is one of `0`..`9`. -/
def isDigit (c : Char) : Bool := decide (48 ≤ c.toNat) && decide (c.toNat ≤ 57)

/-- Decimal digits of a natural number, most significant first; `fuel` bounds
the number of digits and `natDigits` supplies enough of it. -/
def natDigitsAux : Nat → Nat → List Char
  | 0, _ => []
  | fuel + 1, n => if n < 10 then [digitChar n] else natDigitsAux fuel (n / 10) ++ [digitChar (n % 10)]

/-- Decimal digits of a natural number (`strconv.AppendUint`, base 10). -/
def natDigits (n : Nat) : List Char := natDigitsAux (n + 1) n

/-- Decimal text of an integer (`strconv.AppendInt`, base 10). -/
def intDigits (x : Int) : List Char :=
  if x < 0 then '-' :: natDigits x.natAbs else natDigits x.natAbs

/-- Value of a sequence of decimal digits. -/
def digitsVal (cs : List Char) : Nat := cs.foldl (fun acc c => acc * 10 + digitVal c) 0

/-- Reading of a decimal integer into an `int` (`strconv.ParseInt(s, 10, 64)` on a
JSON number literal): a literal with a fraction or an exponent, or out of range,
is refused. -/
def parseInt (lit : List Char) : Option GoInt :=
  match lit with
  | '-' :: ds =>
    if ds ≠ [] ∧ ds.all isDigit then
      if h : minInt ≤ -(digitsVal ds : Int) ∧ -(digitsVal ds : Int) ≤ maxInt then
        some ⟨-(digitsVal ds : Int), h.1, h.2⟩
      else none
    else none
  | ds =>
    if ds ≠ [] ∧ ds.all isDigit then
      if h : minInt ≤ (digitsVal ds : Int) ∧ (digitsVal ds : Int) ≤ maxInt then
        some ⟨(digitsVal ds : Int), h.1, h.2⟩
      else none
    else none

/-! ## JSON text (`encoding/json`) -/

/-- A parsed JSON value; a number keeps its literal. -/
inductive JSON where
  | null
  | bool (b : Bool)
  | num (lit : List Char)
  | str (s : List Char)
  | arr (xs : List JSON)
  | obj (kvs : List (List Char × JSON))

/-- JSON insignificant whitespace. -/
def isSpace (c : Char) : Bool := c = ' ' || c = '\t' || c = '\n' || c = '\r'

/-- Input with leading whitespace removed. -/
def skipWS (cs : List Char) : List Char := cs.dropWhile isSpace

/-- Value of a hexadecimal digit. -/
def hexVal (c : Char) : Option Nat :=
  if isDigit c then some (c.toNat - 48)
  else if 97 ≤ c.toNat ∧ c.toNat ≤ 102 then some (c.toNat - 87)
  else if 65 ≤ c.toNat ∧ c.toNat ≤ 70 then some (c.toNat - 55)
  else none

/-- The character a one-letter escape stands for. -/
def unescape (c : Char) : Option Char :=
  if c = '"' then some '"'
  else if c = '\\' then some '\\'
  else if c = '/' then some '/'
  else if c = 'b' then some (Char.ofNat 8)
  else if c = 'f' then some (Char.ofNat 12)
  else if c = 'n' then some '\n'
  else if c = 'r' then some '\r'
  else if c = 't' then some '\t'
  else none

/-- The character of a `\uXXXX` escape; a surrogate half reads as U+FFFD. -/
def escapedChar (v : Nat) : Char :=
  if 55296 ≤ v ∧ v ≤ 57343 then Char.ofNat 65533 else Char.ofNat v

/-- Where the string scanner stands: in plain text, after a backslash, or inside
a `\u` escape with `k` hex digits still to come. -/
inductive StrState where
  | plain
  | esc
  | hex (k : Nat) (acc : Nat)

/-- Scans a string literal after its opening quote: the decoded characters and
the input after the closing quote. -/
def scanString : StrState → List Char → Option (List Char × List Char)
  | _, [] => none
  | .plain, c :: cs =>
    if c = '"' then some ([], cs)
    else if c = '\\' then scanString .esc cs
    else if c.toNat < 32 then none
    else (scanString .plain cs).map (fun r => (c :: r.1, r.2))
  | .esc, c :: cs =>
    if c = 'u' then scanString (.hex 4 0) cs
    else match unescape c with
      | none => none
      | some ch => (scanString .plain cs).map (fun r => (ch :: r.1, r.2))
  | .hex k acc, c :: cs =>
    match hexVal c with
    | none => none
    | some v =>
      if k ≤ 1 then (scanString .plain cs).map (fun r => (escapedChar (acc * 16 + v) :: r.1, r.2))
      else scanString (.hex (k - 1) (acc * 16 + v)) cs

/-- The exponent part of a number, if any, after the literal read so far. -/
def scanExp (lit : List Char) (cs : List Char) : Option (List Char × List Char) :=
  match cs with
  | [] => some (lit, [])
  | e :: r =>
    if e = 'e' ∨ e = 'E' then
      match r with
      | [] => none
      | s :: t =>
        if s = '+' ∨ s = '-' then
          if (t.span isDigit).1 = [] then none
          else some (lit ++ e :: s :: (t.span isDigit).1, (t.span isDigit).2)
        else
          if (r.span isDigit).1 = [] then none
          else some (lit ++ e :: (r.span isDigit).1, (r.span isDigit).2)
    else some (lit, cs)

/-- The fraction part of a number, if any, then the exponent. -/
def scanFrac (lit : List Char) (cs : List Char) : Option (List Char × List Char) :=
  match cs with
  | [] => some (lit, [])
  | d :: r =>
    if d = '.' then
      if (r.span isDigit).1 = [] then none
      else scanExp (lit ++ d :: (r.span isDigit).1) (r.span isDigit).2
    else scanExp lit cs

/-- The integer part of a number after an optional sign: a lone `0`, or a
non-zero digit followed by digits. -/
def scanIntPart (sign : List Char) (cs : List Char) : Option (List Char × List Char) :=
  match cs with
  | [] => none
  | d :: r =>
    if d = '0' then scanFrac (sign ++ [d]) r
    else if isDigit d then scanFrac (sign ++ d :: (r.span isDigit).1) (r.span isDigit).2
    else none

/-- Scans a JSON number: its literal and the input after it. -/
def scanNumber (cs : List Char) : Option (List Char × List Char) :=
  match cs with
  | [] => none
  | c :: r => if c = '-' then scanIntPart [c] r else scanIntPart [] cs

/-- What the parser is reading: one value, the rest of an array, or the rest of
an object. -/
inductive Mode where
  | value
  | elems (acc : List JSON)
  | members (acc : List (List Char × JSON))

/-- Nesting beyond this depth is refused by the decoder. -/
def maxNestingDepth : Nat := 10000

/-- Recursive-descent JSON parser: `depth` counts the arrays and objects
entered, `fuel` bounds the recursion (two units per character suffice). -/
def parse : Nat → Nat → Mode → List Char → Option (JSON × List Char)
  | 0, _, _, _ => none
  | fuel + 1, depth, .value, cs =>
    match skipWS cs with
    | [] => none
    | c :: r =>
      if c = '{' then
        if depth ≥ maxNestingDepth then none
        else match skipWS r with
          | [] => none
          | c1 :: r1 => if c1 = '}' then some (.obj [], r1) else parse fuel (depth + 1) (.members []) (c1 :: r1)
      else if c = '[' then
        if depth ≥ maxNestingDepth then none
        else match skipWS r with
          | [] => none
          | c1 :: r1 => if c1 = ']' then some (.arr [], r1) else parse fuel (depth + 1) (.elems []) (c1 :: r1)
      else if c = '"' then (scanString .plain r).map (fun p => (.str p.1, p.2))
      else if c = 'n' then
        match r with
        | 'u' :: 'l' :: 'l' :: r1 => some (.null, r1)
        | _ => none
      else if c = 't' then
        match r with
        | 'r' :: 'u' :: 'e' :: r1 => some (.bool true, r1)
        | _ => none
      else if c = 'f' then
        match r with
        | 'a' :: 'l' :: 's' :: 'e' :: r1 => some (.bool false, r1)
        | _ => none
      else (scanNumber (c :: r)).map (fun p => (.num p.1, p.2))
  | fuel + 1, depth, .elems acc, cs =>
    match parse fuel depth .value cs with
    | none => none
    | some (v, r) =>
      match skipWS r with
      | [] => none
      | c :: r1 =>
        if c = ',' then parse fuel depth (.elems (acc ++ [v])) r1
        else if c = ']' then some (.arr (acc ++ [v]), r1)
        else none
  | fuel + 1, depth, .members acc, cs =>
    match skipWS cs with
    | [] => none
    | q :: r =>
      if q = '"' then
        match scanString .plain r with
        | none => none
        | some (key, r1) =>
          match skipWS r1 with
          | [] => none
          | c :: r2 =>
            if c = ':' then
              match parse fuel depth .value r2 with
              | none => none
              | some (v, r3) =>
                match skipWS r3 with
                | [] => none
                | c1 :: r4 =>
                  if c1 = ',' then parse fuel depth (.members (acc ++ [(key, v)])) r4
                  else if c1 = '}' then some (.obj (acc ++ [(key, v)]), r4)
                  else none
            else none
      else none

/-- A whole JSON text: one value, then only whitespace. -/
def parseJSON (cs : List Char) : Option JSON :=
  match parse (2 * cs.length + 2) 0 .value cs with
  | none => none
  | some (v, r) => if skipWS r = [] then some v else none

/-! ## Clock readings and their RFC 3339 text (`time`) -/

/-- Leap years of the proleptic Gregorian calendar. -/
def isLeap (y : Int) : Bool := y % 4 = 0 && (y % 100 ≠ 0 || y % 400 = 0)

/-- Number of days of a month. -/
def daysIn (y : Int) (m : Nat) : Nat :=
  if m = 2 then (if isLeap y then 29 else 28)
  else if m = 4 ∨ m = 6 ∨ m = 9 ∨ m = 11 then 30
  else 31

/-- The calendar fields of a `time.Time` are those of a real instant: a month,
a day of that month, a time of day, and a zone offset of less than a day. -/
def validClock (year : Int) (month day hour minute second nanosecond : Nat) (offset : Int) : Bool :=
  decide (1 ≤ month ∧ month ≤ 12 ∧ 1 ≤ day ∧ day ≤ daysIn year month ∧ hour < 24 ∧ minute < 60
    ∧ second < 60 ∧ nanosecond < 1000000000 ∧ -86400 < offset ∧ offset < 86400)

/-- A `time.Time`, by its calendar fields; `offset` is the zone offset in
seconds east of UTC.  The year is not bounded. -/
structure Time where
  year : Int
  month : Nat
  day : Nat
  hour : Nat
  minute : Nat
  second : Nat
  nanosecond : Nat
  offset : Int
  wf : validClock year month day hour minute second nanosecond offset = true

/-- The zero `time.Time`: January 1 of year 1, 00:00:00 UTC. -/
def Time.zero : Time := ⟨1, 1, 1, 0, 0, 0, 0, 0, by decide⟩

/-- Two decimal digits. -/
def pad2 (n : Nat) : List Char := [digitChar (n / 10 % 10), digitChar (n % 10)]

/-- Four decimal digits. -/
def pad4 (n : Nat) : List Char :=
  [digitChar (n / 1000 % 10), digitChar (n / 100 % 10), digitChar (n / 10 % 10), digitChar (n % 10)]

/-- Nine decimal digits. -/
def pad9 (n : Nat) : List Char :=
  [digitChar (n / 100000000 % 10), digitChar (n / 10000000 % 10), digitChar (n / 1000000 % 10),
   digitChar (n / 100000 % 10), digitChar (n / 10000 % 10), digitChar (n / 1000 % 10),
   digitChar (n / 100 % 10), digitChar (n / 10 % 10), digitChar (n % 10)]

/-- Fractional seconds of the layout `.999999999`: nothing for zero, otherwise
nine digits with the trailing zeros removed. -/
def formatNano (ns : Nat) : List Char :=
  if ns = 0 then [] else '.' :: (pad9 ns).rdropWhile (fun c => c = '0')

/-- Zone of the layout `Z07:00`: `Z` for offset zero, otherwise sign, hours and
minutes. -/
def formatZone (offset : Int) : List Char :=
  if offset = 0 then ['Z']
  else if Int.tdiv offset 60 < 0 then
    '-' :: (pad2 ((Int.tdiv offset 60).natAbs / 60) ++ ':' :: pad2 ((Int.tdiv offset 60).natAbs % 60))
  else
    '+' :: (pad2 ((Int.tdiv offset 60).natAbs / 60) ++ ':' :: pad2 ((Int.tdiv offset 60).natAbs % 60))

/-- Text of a time in the layout `time.RFC3339Nano`, for a year of four digits. -/
def formatRFC3339Nano (t : Time) : List Char :=
  pad4 t.year.toNat ++ '-' :: (pad2 t.month ++ '-' :: (pad2 t.day ++ 'T' :: (pad2 t.hour ++ ':' ::
    (pad2 t.minute ++ ':' :: (pad2 t.second ++ (formatNano t.nanosecond ++ formatZone t.offset))))))

/-- The method `Time.MarshalJSON`: the quoted RFC 3339 text, or an error for a
year outside 0..9999. -/
def Time.MarshalJSON (t : Time) : Except GoError Bytes :=
  if 0 ≤ t.year ∧ t.year < 10000 then .ok ('"' :: (formatRFC3339Nano t ++ ['"']))
  else .error .marshalerError

/-- Reads two digits. -/
def take2 (cs : List Char) : Option (Nat × List Char) :=
  match cs with
  | a :: b :: r => if isDigit a && isDigit b then some (digitVal a * 10 + digitVal b, r) else none
  | _ => none

/-- Reads four digits. -/
def take4 (cs : List Char) : Option (Nat × List Char) :=
  match cs with
  | a :: b :: c :: d :: r =>
    if isDigit a && isDigit b && isDigit c && isDigit d then
      some (digitVal a * 1000 + digitVal b * 100 + digitVal c * 10 + digitVal d, r)
    else none
  | _ => none

/-- Reads one given character. -/
def expectChar (c : Char) (cs : List Char) : Option (List Char) :=
  match cs with
  | x :: r => if x = c then some r else none
  | [] => none

/-- Reads optional fractional seconds, as nanoseconds. -/
def parseNanos (cs : List Char) : Option (Nat × List Char) :=
  match cs with
  | [] => some (0, [])
  | c :: r =>
    if c = '.' then
      if (r.span isDigit).1 = [] then none
      else some (digitsVal (((r.span isDigit).1 ++ List.replicate 9 '0').take 9), (r.span isDigit).2)
    else some (0, cs)

/-- Reads the zone, which ends the text: `Z`, or sign, hours below 24, colon and
minutes below 60. -/
def parseZone (cs : List Char) : Option Int :=
  match cs with
  | [] => none
  | s :: r =>
    if s = 'Z' then (if r = [] then some 0 else none)
    else if s = '+' ∨ s = '-' then
      match take2 r with
      | none => none
      | some (hh, r1) =>
        match expectChar ':' r1 with
        | none => none
        | some r2 =>
          match take2 r2 with
          | none => none
          | some (mm, r3) =>
            if r3 = [] ∧ hh < 24 ∧ mm < 60 then
              some (if s = '-' then -(((hh * 60 + mm) * 60 : Nat) : Int) else (((hh * 60 + mm) * 60 : Nat) : Int))
            else none
    else none

/-- Reads the date `YYYY-MM-DD`: year, month, day and the rest of the input. -/
def parseDate (cs : List Char) : Option (Nat × Nat × Nat × List Char) :=
  match take4 cs with
  | none => none
  | some (y, r0) =>
    match expectChar '-' r0 with
    | none => none
    | some r1 =>
      match take2 r1 with
      | none => none
      | some (mo, r2) =>
        match expectChar '-' r2 with
        | none => none
        | some r3 =>
          match take2 r3 with
          | none => none
          | some (d, r4) => some (y, mo, d, r4)

/-- Reads the time of day `HH:MM:SS`: hour, minute, second and the rest. -/
def parseClock (cs : List Char) : Option (Nat × Nat × Nat × List Char) :=
  match take2 cs with
  | none => none
  | some (h, r0) =>
    match expectChar ':' r0 with
    | none => none
    | some r1 =>
      match take2 r1 with
      | none => none
      | some (mi, r2) =>
        match expectChar ':' r2 with
        | none => none
        | some r3 =>
          match take2 r3 with
          | none => none
          | some (s, r4) => some (h, mi, s, r4)

/-- Reads the fraction and the zone that end the text. -/
def parseTail (cs : List Char) : Option (Nat × Int) :=
  match parseNanos cs with
  | none => none
  | some (ns, r) =>
    match parseZone r with
    | none => none
    | some off => some (ns, off)

/-- A time from fields that were read, if they are those of a real instant. -/
def mkTime (y mo d h mi s ns : Nat) (off : Int) : Option Time :=
  if hv : validClock (y : Int) mo d h mi s ns off = true then
    some ⟨(y : Int), mo, d, h, mi, s, ns, off, hv⟩
  else none

/-- Reads a time in RFC 3339 form, checking the ranges of its fields. -/
def parseRFC3339 (cs : List Char) : Option Time :=
  match parseDate cs with
  | none => none
  | some (y, mo, d, r0) =>
    match expectChar 'T' r0 with
    | none => none
    | some r1 =>
      match parseClock r1 with
      | none => none
      | some (h, mi, s, r2) =>
        match parseTail r2 with
        | none => none
        | some (ns, off) => mkTime y mo d h mi s ns off

/-- The method `Time.UnmarshalJSON` on one JSON value: `null` leaves the time as
it is, a string is read as RFC 3339, anything else is an error. -/
def Time.UnmarshalJSON (cur : Time) (v : JSON) : Except GoError Time :=
  match v with
  | .null => .ok cur
  | .str s =>
    match parseRFC3339 s with
    | some t => .ok t
    | none => .error .timeParseError
  | _ => .error .timeParseError

/-! ## The payload structs and their JSON codec -/

/-- The struct `event`. -/
structure event where
  ID : GoInt
  deriving DecidableEq

/-- The struct `processedEvent`. -/
structure processedEvent where
  ProcessedID : GoInt
  Time : Time

/-- Case folding of object keys: ASCII letters to upper case, the long s and the
Kelvin sign to the letters they fold to. -/
def foldChar (c : Char) : Char :=
  if 97 ≤ c.toNat ∧ c.toNat ≤ 122 then Char.ofNat (c.toNat - 32)
  else if c.toNat = 383 then 'S'
  else if c.toNat = 8490 then 'K'
  else c

/-- Whether an object key selects the field of the given JSON name: an exact
match, or a match up to case. -/
def keyMatches (name key : List Char) : Bool :=
  decide (key = name) || decide (key.map foldChar = name.map foldChar)

/-- Stores a JSON value into an `int` field: `null` leaves it, an integer
literal in range is stored, anything else is a type error. -/
def decodeInt (cur : GoInt) (v : JSON) : Except GoError GoInt :=
  match v with
  | .null => .ok cur
  | .num lit =>
    match parseInt lit with
    | some n => .ok n
    | none => .error .unmarshalTypeError
  | _ => .error .unmarshalTypeError

/-- JSON name of the field `event.ID`. -/
def idName : List Char := ['i', 'd']

/-- JSON name of the field `processedEvent.ProcessedID`. -/
def processedIdName : List Char := ['p', 'r', 'o', 'c', 'e', 's', 's', 'e', 'd', '_', 'i', 'd']

/-- JSON name of the field `processedEvent.Time`. -/
def timeName : List Char := ['t', 'i', 'm', 'e']

/-- Stores the members of an object into an `event`, in order.  A type error is
kept (the first one) and decoding goes on; unknown keys are skipped. -/
def decodeEventFields : List (List Char × JSON) → event → Option GoError → Except GoError event
  | [], e, none => .ok e
  | [], _, some err => .error err
  | (k, v) :: rest, e, saved =>
    if keyMatches idName k then
      match decodeInt e.ID v with
      | .ok n => decodeEventFields rest ⟨n⟩ saved
      | .error err => decodeEventFields rest e (saved.orElse fun _ => some err)
    else decodeEventFields rest e saved

/-- The call `json.Unmarshal(payload, &consumedPayload)` on a zero `event`. -/
def unmarshalEvent (payload : Bytes) : Except GoError event :=
  match parseJSON payload with
  | none => .error .syntaxError
  | some .null => .ok ⟨GoInt.zero⟩
  | some (.obj kvs) => decodeEventFields kvs ⟨GoInt.zero⟩ none
  | some _ => .error .unmarshalTypeError

/-- The call `json.Marshal(e)` on an `event`: it has no way to fail. -/
def marshalEvent (e : event) : Bytes :=
  '{' :: '"' :: 'i' :: 'd' :: '"' :: ':' :: (intDigits e.ID.val ++ ['}'])

/-- Stores the members of an object into a `processedEvent`, in order.  A type
error is kept and decoding goes on; an error of `Time.UnmarshalJSON` ends it. -/
def decodeProcessedFields : List (List Char × JSON) → processedEvent → Option GoError →
    Except GoError processedEvent
  | [], p, none => .ok p
  | [], _, some err => .error err
  | (k, v) :: rest, p, saved =>
    if keyMatches processedIdName k then
      match decodeInt p.ProcessedID v with
      | .ok n => decodeProcessedFields rest ⟨n, p.Time⟩ saved
      | .error err => decodeProcessedFields rest p (saved.orElse fun _ => some err)
    else if keyMatches timeName k then
      match Time.UnmarshalJSON p.Time v with
      | .ok t => decodeProcessedFields rest ⟨p.ProcessedID, t⟩ saved
      | .error err => .error err
    else decodeProcessedFields rest p saved

/-- The call `json.Unmarshal(payload, &p)` on a zero `processedEvent`. -/
def unmarshalProcessedEvent (payload : Bytes) : Except GoError processedEvent :=
  match parseJSON payload with
  | none => .error .syntaxError
  | some .null => .ok ⟨GoInt.zero, Time.zero⟩
  | some (.obj kvs) => decodeProcessedFields kvs ⟨GoInt.zero, Time.zero⟩ none
  | some _ => .error .unmarshalTypeError

/-- The call `json.Marshal(p)` on a `processedEvent`: it fails when the time does. -/
def marshalProcessedEvent (p : processedEvent) : Except GoError Bytes :=
  match Time.MarshalJSON p.Time with
  | .error err => .error err
  | .ok t =>
    .ok ('{' :: '"' :: (processedIdName ++ '"' :: ':' :: (intDigits p.ProcessedID.val ++
      ',' :: '"' :: (timeName ++ '"' :: ':' :: (t ++ ['}'])))))

/-! ## Messages and the processing function registered in `Test` -/

/-- A watermill `message.Message`: its id, payload and metadata. -/
structure Message where
  UUID : GoString
  Payload : Bytes
  Metadata : List (GoString × GoString)
  deriving DecidableEq

/-- The constructor `message.NewMessage`: the metadata starts empty. -/
def NewMessage (uuid : GoString) (payload : Bytes) : Message := ⟨uuid, payload, []⟩

/-- The pair a processing function returns: a slice of messages (`nil` is the
empty list) and an error (`nil` is `none`). -/
structure HandlerResult where
  msgs : List Message
  err : Option GoError
  deriving DecidableEq

/-- The function literal passed to `router.AddHandler` in `Test`.  `now` is
what `time.Now()` returns and `uuid` what `watermill.NewUUID()` returns when
the body reaches them; the log line has no effect on the result. -/
def handler (now : Time) (uuid : GoString) (msg : Message) : HandlerResult :=
  match unmarshalEvent msg.Payload with
  | .error err => ⟨[], some err⟩
  | .ok consumedPayload =>
    match marshalProcessedEvent ⟨consumedPayload.ID, now⟩ with
    | .error err => ⟨[], some err⟩
    | .ok newPayload => ⟨[NewMessage uuid newPayload], none⟩

/-- One delivery to the processing function, with the clock reading and the id
the generator hands out during it. -/
structure Delivery where
  now : Time
  uuid : GoString
  msg : Message

/-- The messages handed on for publication when the processing function is run
on a sequence of deliveries, in order. -/
def outputs (ds : List Delivery) : List Message :=
  (ds.map fun d => (handler d.now d.uuid d.msg).msgs).flatten

/-! ## The broker and the package-level helpers -/

/-- The package variable `brokers`. -/
def brokers : List GoString := [['l', 'o', 'c', 'a', 'l', 'h', 'o', 's', 't', ':', '2', '9', '0', '9', '2']]

/-- The package variable `consumeTopic`. -/
def consumeTopic : GoString := ['e', 'v', 'e', 'n', 't', 's']

/-- The package variable `publishTopic`. -/
def publishTopic : GoString :=
  ['e', 'v', 'e', 'n', 't', 's', '-', 'p', 'r', 'o', 'c', 'e', 's', 's', 'e', 'd']

/-- The struct `kafka.PublisherConfig`, with the fields the file sets (the
marshaler is the one default value). -/
structure PublisherConfig where
  Brokers : List GoString
  deriving DecidableEq

/-- The struct `kafka.SubscriberConfig`, with the fields the file sets. -/
structure SubscriberConfig where
  Brokers : List GoString
  ConsumerGroup : GoString
  deriving DecidableEq

/-- A Kafka publisher: it keeps the configuration it was made with. -/
structure Publisher where
  config : PublisherConfig
  deriving DecidableEq

/-- A Kafka subscriber: it keeps the configuration it was made with. -/
structure Subscriber where
  config : SubscriberConfig
  deriving DecidableEq

/-- One call of `Publish`: the topic and the message. -/
structure PublishCall where
  topic : GoString
  msg : Message
  deriving DecidableEq

/-- What the file calls and does not define: whether the constructors of the
publisher, the subscriber and the router fail, whether a `Publish` fails (it
may depend on the publisher, on the calls before it and on the call itself),
the ids `watermill.NewUUID` hands out (by the number of calls before), and
what `router.Run` returns. -/
structure World where
  newPublisherErr : PublisherConfig → Option GoError
  newSubscriberErr : SubscriberConfig → Option GoError
  newRouterErr : Option GoError
  publishErr : Publisher → List PublishCall → GoString → Message → Option GoError
  uuid : Nat → GoString
  runErr : Option GoError

/-- The function `CreatePublisher`. -/
def CreatePublisher (w : World) : Outcome Publisher :=
  match w.newPublisherErr ⟨brokers⟩ with
  | some err => .panicked err
  | none => .returned ⟨⟨brokers⟩⟩

/-- The function `CreateSubscriber`. -/
def CreateSubscriber (w : World) (consumerGroup : GoString) : Outcome Subscriber :=
  match w.newSubscriberErr ⟨brokers, consumerGroup⟩ with
  | some err => .panicked err
  | none => .returned ⟨⟨brokers, consumerGroup⟩⟩

/-- The producer loop between two passes: the counter `i`, the `Publish` calls
made so far (oldest first), and the panic that ended the loop, if any. -/
structure ProducerState where
  i : GoInt
  calls : List PublishCall
  panic : Option GoError
  deriving DecidableEq

/-- The producer before its first pass: `i := 0`. -/
def producerInit : ProducerState := ⟨GoInt.zero, [], none⟩

/-- One pass through the body of the `for` loop of `simulateEvents`: encode
`event{ID: i}` (this cannot fail), publish it on `consumeTopic` in a new
message, panic if the publish failed, otherwise `i++` and sleep. -/
def simulateEventsStep (w : World) (publisher : Publisher) (s : ProducerState) : ProducerState :=
  match s.panic with
  | some _ => s
  | none =>
    match w.publishErr publisher s.calls consumeTopic
        (NewMessage (w.uuid s.calls.length) (marshalEvent ⟨s.i⟩)) with
    | some err =>
      ⟨s.i, s.calls ++ [⟨consumeTopic, NewMessage (w.uuid s.calls.length) (marshalEvent ⟨s.i⟩)⟩], some err⟩
    | none =>
      ⟨s.i.incr, s.calls ++ [⟨consumeTopic, NewMessage (w.uuid s.calls.length) (marshalEvent ⟨s.i⟩)⟩], none⟩

/-- The function `simulateEvents`, observed after `n` passes of its endless loop. -/
def simulateEvents (w : World) (publisher : Publisher) : Nat → ProducerState
  | 0 => producerInit
  | n + 1 => simulateEventsStep w publisher (simulateEvents w publisher n)

/-- What `KafkaProduce` did: the `Publish` calls it made and how it ended. -/
structure ProduceResult where
  calls : List PublishCall
  outcome : Outcome Unit
  deriving DecidableEq

/-- The function `KafkaProduce`. -/
def KafkaProduce (w : World) (payload : Bytes) : ProduceResult :=
  match CreatePublisher w with
  | .panicked err => ⟨[], .panicked err⟩
  | .returned publisher =>
    match w.publishErr publisher [] consumeTopic (NewMessage (w.uuid 0) payload) with
    | some err => ⟨[⟨consumeTopic, NewMessage (w.uuid 0) payload⟩], .panicked err⟩
    | none => ⟨[⟨consumeTopic, NewMessage (w.uuid 0) payload⟩], .returned ()⟩

/-- The steps of `Test` that act on the router or start a task. -/
inductive Action where
  | addPlugin (name : GoString)
  | addMiddleware (name : GoString)
  | addHandler (handlerName subscribeTopic : GoString) (subscriber : Subscriber)
      (publishTopic : GoString) (publisher : Publisher)
  | goSimulateEvents (publisher : Publisher)
  | routerRun
  deriving DecidableEq

/-- Whether a step registers a handler. -/
def Action.isAddHandler : Action → Bool
  | .addHandler _ _ _ _ _ => true
  | _ => false

/-- What `Test` did: its steps in order and how it ended. -/
structure TestResult where
  trace : List Action
  outcome : Outcome Unit
  deriving DecidableEq

/-- The consumer group `Test` subscribes with. -/
def handlerGroup : GoString := ['h', 'a', 'n', 'd', 'l', 'e', 'r', '_', '1']

/-- The name `Test` registers its handler under. -/
def handlerName : GoString := ['c', 'i', '-', 's', 'e', 'r', 'v', 'i', 'c', 'e']

/-- The function `Test`, up to the return of `router.Run`. -/
def Test (w : World) : TestResult :=
  match CreatePublisher w with
  | .panicked err => ⟨[], .panicked err⟩
  | .returned publisher =>
    match CreateSubscriber w handlerGroup with
    | .panicked err => ⟨[], .panicked err⟩
    | .returned subscriber =>
      match w.newRouterErr with
      | some err => ⟨[], .panicked err⟩
      | none =>
        match w.runErr with
        | some err =>
          ⟨[.addPlugin ['S', 'i', 'g', 'n', 'a', 'l', 's', 'H', 'a', 'n', 'd', 'l', 'e', 'r'],
            .addMiddleware ['R', 'e', 'c', 'o', 'v', 'e', 'r', 'e', 'r'],
            .addHandler handlerName consumeTopic subscriber publishTopic publisher,
            .goSimulateEvents publisher, .routerRun], .panicked err⟩
        | none =>
          ⟨[.addPlugin ['S', 'i', 'g', 'n', 'a', 'l', 's', 'H', 'a', 'n', 'd', 'l', 'e', 'r'],
            .addMiddleware ['R', 'e', 'c', 'o', 'v', 'e', 'r', 'e', 'r'],
            .addHandler handlerName consumeTopic subscriber publishTopic publisher,
            .goSimulateEvents publisher, .routerRun], .returned ()⟩

/-! ## `NewULID` -/

/-- The Crockford base-32 alphabet of the ULID text form. -/
def crockford : List Char :=
  ['0', '1', '2', '3', '4', '5', '6', '7', '8', '9', 'A', 'B', 'C', 'D', 'E', 'F',
   'G', 'H', 'J', 'K', 'M', 'N', 'P', 'Q', 'R', 'S', 'T', 'V', 'W', 'X', 'Y', 'Z']

/-- The character of one base-32 digit. -/
def encodeChar (v : Nat) : Char := crockford.getD v '0'

/-- The `width` low base-32 digits of `n`, most significant first. -/
def base32 : Nat → Nat → List Char
  | 0, _ => []
  | w + 1, n => encodeChar (n / 32 ^ w % 32) :: base32 w (n % 32 ^ w)

/-- The largest timestamp a ULID holds: 48 bits of milliseconds. -/
def maxTime : Nat := 281474976710655

/-- A draw of ten random bytes, by its big-endian value. -/
abbrev Entropy := Fin 1208925819614629174706176

/-- Go's `<` on strings: the lexicographic order of their characters. -/
def strLt : GoString → GoString → Bool
  | [], [] => false
  | [], _ :: _ => true
  | _ :: _, [] => false
  | a :: s, b :: t => if a < b then true else if b < a then false else strLt s t

/-- The function `NewULID`.  `ms` is what `ulid.Now()` returns and `entropy`
what reading ten bytes from `rand.Reader` gives (their big-endian value, or the
read error).  `ulid.MustNew` panics on a timestamp above `maxTime` and on a
failed read; the text is ten characters of time, then sixteen of entropy. -/
def NewULID (ms : Nat) (entropy : Except GoError Entropy) : Outcome GoString :=
  if ms > maxTime then .panicked .bigTime
  else match entropy with
    | .error err => .panicked err
    | .ok e => .returned (base32 10 ms ++ base32 16 e.val)

/-! ## Predicates used in the statements -/

/-- A character that ends a number literal: not a digit, a point or an exponent mark. -/
def endsNumber (c : Char) : Prop := isDigit c = false ∧ c ≠ '.' ∧ c ≠ 'e' ∧ c ≠ 'E'

/-- A character that stands for itself inside a string literal. -/
def isPlain (c : Char) : Bool := decide (c ≠ '"') && decide (c ≠ '\\') && decide (¬ c.toNat < 32)

/-- An output message is the transformation of a delivery's input: both payloads
decode, and the `processed_id` of the output is the `id` of the input. -/
def Transforms (d : Delivery) (m : Message) : Prop :=
  ∃ e q, unmarshalEvent d.msg.Payload = .ok e ∧ unmarshalProcessedEvent m.Payload = .ok q ∧
    q.ProcessedID = e.ID

/-- The `int` five. -/
def five : GoInt := ⟨5, by decide, by decide⟩

/-- The payload `{"id":5}`. -/
def payloadFive : Bytes := ['{', '"', 'i', 'd', '"', ':', '5', '}']

/-- An input message that carries `{"id":5}`. -/
def msgFive : Message := ⟨['i', 'n', '-', '1'], payloadFive, []⟩

/-- The same payload under another id. -/
def msgFiveAgain : Message := ⟨['i', 'n', '-', '2'], payloadFive, []⟩

/-- An input message whose payload is not JSON. -/
def msgGarbage : Message := ⟨['i', 'n', '-', '3'], ['o', 'o', 'p', 's'], []⟩

/-- A clock reading: 2024-05-17 10:30:00.123 at UTC+2. -/
def clockSample : Time := ⟨2024, 5, 17, 10, 30, 0, 123000000, 7200, by decide⟩

/-- A clock reading one second later: 2024-05-17 10:30:01.123 at UTC+2. -/
def clockLater : Time := ⟨2024, 5, 17, 10, 30, 1, 123000000, 7200, by decide⟩

/-- A clock reading in the year 10000. -/
def clockYear10000 : Time := ⟨10000, 1, 1, 0, 0, 0, 0, 0, by decide⟩

/-- An id the generator hands out. -/
def freshId : GoString := ['o', 'u', 't', '-', '1']

/-- One delivery of `msgFive`. -/
def deliveryFive : Delivery := ⟨clockSample, freshId, msgFive⟩

/-- The publisher `CreatePublisher` returns. -/
def thePublisher : Publisher := ⟨⟨brokers⟩⟩

/-- A world in which nothing fails; the ids handed out are the decimal numbers. -/
def quietWorld : World :=
  { newPublisherErr := fun _ => none
    newSubscriberErr := fun _ => none
    newRouterErr := none
    publishErr := fun _ _ _ _ => none
    uuid := fun k => natDigits k
    runErr := none }

/-- A world whose broker refuses every publish. -/
def deafWorld : World :=
  { newPublisherErr := fun _ => none
    newSubscriberErr := fun _ => none
    newRouterErr := none
    publishErr := fun _ _ _ _ => some (.transport 1)
    uuid := fun k => natDigits k
    runErr := none }

/-- A world whose broker cannot be reached when the publisher is made. -/
def noBrokerWorld : World :=
  { newPublisherErr := fun _ => some (.transport 2)
    newSubscriberErr := fun _ => some (.transport 2)
    newRouterErr := none
    publishErr := fun _ _ _ _ => some (.transport 1)
    uuid := fun k => natDigits k
    runErr := none }

/-- A world in which only the construction of the router fails. -/
def noRouterWorld : World :=
  { newPublisherErr := fun _ => none
    newSubscriberErr := fun _ => none
    newRouterErr := some (.transport 3)
    publishErr := fun _ _ _ _ => none
    uuid := fun k => natDigits k
    runErr := none }

/-- The `Publish` call the producer makes in its pass number `j` (from zero)
when nothing failed before. -/
def producerCall (w : World) (j : Nat) : PublishCall :=
  ⟨consumeTopic, NewMessage (w.uuid j) (marshalEvent ⟨GoInt.wrap j⟩)⟩

/-- The payload `{"id":-9223372036854775808}`. -/
def payloadMinInt : Bytes :=
  ['{', '"', 'i', 'd', '"', ':', '-', '9', '2', '2', '3', '3', '7', '2', '0', '3', '6', '8', '5',
   '4', '7', '7', '5', '8', '0', '8', '}']

/-- A small entropy draw. -/
def entropyThree : Entropy := ⟨3, by decide⟩

/-- A larger entropy draw. -/
def entropyFive : Entropy := ⟨5, by decide⟩

/-! # Properties -/

/-! ## Decimal text -/

theorem isDigit_digitChar (d : Nat) : isDigit (digitChar d) = true := by
  unfold digitChar
  split <;> decide

theorem digitVal_digitChar (d : Nat) (h : d < 10) : digitVal (digitChar d) = d := by
  interval_cases d <;> rfl

theorem digitChar_ne_zero (d : Nat) (h : d ≠ 0) : digitChar d ≠ '0' := by
  unfold digitChar
  split <;> first | contradiction | decide

theorem span_isDigit_append (ds : List Char) (c : Char) (r : List Char)
    (hds : ∀ x ∈ ds, isDigit x = true) (hc : isDigit c = false) :
    (ds ++ c :: r).span isDigit = (ds, c :: r) := by
  induction ds with
  | nil => simp [List.span_eq_take_drop, List.takeWhile, List.dropWhile, hc]
  | cons a t ih =>
    have ha : isDigit a = true := hds a (List.mem_cons_self _ _)
    have ht : ∀ x ∈ t, isDigit x = true := fun x hx => hds x (List.mem_cons_of_mem _ hx)
    have := ih ht
    simp [List.span_eq_take_drop, List.takeWhile, List.dropWhile, ha] at this ⊢
    exact this

theorem digitsVal_append_single (xs : List Char) (c : Char) :
    digitsVal (xs ++ [c]) = digitsVal xs * 10 + digitVal c := by
  simp [digitsVal, List.foldl_append]

theorem natDigitsAux_isDigit (f n : Nat) : ∀ c ∈ natDigitsAux f n, isDigit c = true := by
  induction f generalizing n with
  | zero => simp [natDigitsAux]
  | succ f ih =>
    intro c hc
    unfold natDigitsAux at hc
    split at hc
    · simp at hc; subst hc; exact isDigit_digitChar n
    · simp at hc
      rcases hc with hc | hc
      · exact ih _ c hc
      · subst hc; exact isDigit_digitChar _

theorem digitsVal_natDigitsAux (f n : Nat) (h : n < f) : digitsVal (natDigitsAux f n) = n := by
  induction f generalizing n with
  | zero => omega
  | succ f ih =>
    unfold natDigitsAux
    split
    · simp [digitsVal, digitVal_digitChar n (by assumption)]
    · rw [digitsVal_append_single, ih (n / 10) (by omega), digitVal_digitChar _ (by omega)]
      omega

theorem natDigitsAux_head (f n : Nat) (h : n < f) (hn : n ≠ 0) :
    ∃ c t, natDigitsAux f n = c :: t ∧ c ≠ '0' ∧ isDigit c = true ∧ ∀ x ∈ t, isDigit x = true := by
  induction f generalizing n with
  | zero => omega
  | succ f ih =>
    unfold natDigitsAux
    split
    · exact ⟨digitChar n, [], rfl, digitChar_ne_zero n hn, isDigit_digitChar n, by simp⟩
    · obtain ⟨c, t, hct, hc0, hcd, ht⟩ := ih (n / 10) (by omega) (by omega)
      refine ⟨c, t ++ [digitChar (n % 10)], by simp [hct], hc0, hcd, ?_⟩
      intro x hx
      simp at hx
      rcases hx with hx | hx
      · exact ht x hx
      · subst hx; exact isDigit_digitChar _

theorem natDigits_isDigit (n : Nat) : ∀ c ∈ natDigits n, isDigit c = true :=
  natDigitsAux_isDigit (n + 1) n

theorem digitsVal_natDigits (n : Nat) : digitsVal (natDigits n) = n :=
  digitsVal_natDigitsAux (n + 1) n (by omega)

theorem natDigits_ne_nil (n : Nat) : natDigits n ≠ [] := by
  unfold natDigits natDigitsAux
  split
  · simp
  · simp

theorem scanFrac_end (lit : List Char) (c : Char) (r : List Char) (hc : endsNumber c) :
    scanFrac lit (c :: r) = some (lit, c :: r) := by
  obtain ⟨_, h1, h2, h3⟩ := hc
  simp [scanFrac, scanExp, h1, h2, h3]

theorem scanIntPart_natDigits (sign : List Char) (n : Nat) (c : Char) (r : List Char)
    (hc : endsNumber c) :
    scanIntPart sign (natDigits n ++ c :: r) = some (sign ++ natDigits n, c :: r) := by
  by_cases hn : n = 0
  · subst hn
    simp [natDigits, natDigitsAux, scanIntPart, digitChar, scanFrac_end _ c r hc]
  · obtain ⟨d, t, hdt, hd0, hdd, ht⟩ := natDigitsAux_head (n + 1) n (by omega) hn
    unfold natDigits
    rw [hdt]
    simp only [List.cons_append, scanIntPart, hd0, hdd, if_false, if_true]
    rw [span_isDigit_append t c r ht hc.1]
    exact scanFrac_end _ c r hc

theorem scanNumber_intDigits (x : Int) (c : Char) (r : List Char) (hc : endsNumber c) :
    scanNumber (intDigits x ++ c :: r) = some (intDigits x, c :: r) := by
  unfold intDigits
  split
  · simp only [List.cons_append, scanNumber, if_true]
    exact scanIntPart_natDigits ['-'] _ c r hc
  · have hne := natDigits_ne_nil x.natAbs
    obtain ⟨d, t, hdt⟩ := List.exists_cons_of_ne_nil hne
    have hd : isDigit d = true := natDigits_isDigit x.natAbs d (by simp [hdt])
    have hdm : d ≠ '-' := by
      intro h; subst h; exact absurd hd (by decide)
    have := scanIntPart_natDigits [] x.natAbs c r hc
    rw [hdt] at this ⊢
    simpa [scanNumber, hdm] using this

theorem parseInt_intDigits (x : GoInt) : parseInt (intDigits x.val) = some x := by
  obtain ⟨v, lo, hi⟩ := x
  have hall : (natDigits v.natAbs).all isDigit = true := by
    simpa [List.all_eq_true] using natDigits_isDigit v.natAbs
  have hne := natDigits_ne_nil v.natAbs
  unfold intDigits
  by_cases hv : v < 0
  · have hval : -(digitsVal (natDigits v.natAbs) : Int) = v := by
      rw [digitsVal_natDigits]; omega
    simp only [hv, if_true, parseInt]
    simp [hne, hall, hval, lo, hi]
  · have hval : (digitsVal (natDigits v.natAbs) : Int) = v := by
      rw [digitsVal_natDigits]; omega
    simp only [hv, if_false]
    obtain ⟨d, t, hdt⟩ := List.exists_cons_of_ne_nil hne
    have hd : isDigit d = true := natDigits_isDigit v.natAbs d (by simp [hdt])
    have hdm : d ≠ '-' := by
      intro h; subst h; exact absurd hd (by decide)
    unfold parseInt
    split
    · rename_i ds heq
      rw [hdt] at heq
      simp at heq
      exact absurd heq.1 hdm
    · simp [hne, hall, hval, lo, hi]

theorem endsNumber_rbrace : endsNumber '}' := by
  refine ⟨by decide, by decide, by decide, by decide⟩

theorem endsNumber_comma : endsNumber ',' := by
  refine ⟨by decide, by decide, by decide, by decide⟩

theorem skipWS_cons_of_not_space (c : Char) (r : List Char) (h : isSpace c = false) :
    skipWS (c :: r) = c :: r := by
  simp [skipWS, List.dropWhile, h]

theorem isSpace_of_isDigit (c : Char) (h : isDigit c = true) : isSpace c = false := by
  simp only [isDigit, Bool.and_eq_true, decide_eq_true_eq] at h
  simp only [isSpace, Bool.or_eq_false_iff, decide_eq_false_iff_not]
  refine ⟨⟨⟨?_, ?_⟩, ?_⟩, ?_⟩ <;> (intro hc; subst hc; revert h; decide)

theorem intDigits_head (x : Int) :
    ∃ d t, intDigits x = d :: t ∧ (d = '-' ∨ isDigit d = true) := by
  unfold intDigits
  split
  · exact ⟨'-', _, rfl, Or.inl rfl⟩
  · obtain ⟨d, t, hdt⟩ := List.exists_cons_of_ne_nil (natDigits_ne_nil x.natAbs)
    exact ⟨d, t, hdt, Or.inr (natDigits_isDigit x.natAbs d (by simp [hdt]))⟩

/-- Reading one value that is the decimal text of an integer, before a
character that ends a number. -/
theorem parse_value_intDigits (f depth : Nat) (x : Int) (c : Char) (r : List Char)
    (hc : endsNumber c) :
    parse (f + 1) depth .value (intDigits x ++ c :: r) = some (.num (intDigits x), c :: r) := by
  obtain ⟨d, t, hdt, hd⟩ := intDigits_head x
  have hnum := scanNumber_intDigits x c r hc
  rw [hdt] at hnum ⊢
  have hsp : isSpace d = false := by
    rcases hd with hd | hd
    · subst hd; decide
    · exact isSpace_of_isDigit d hd
  have hne : d ≠ '{' ∧ d ≠ '[' ∧ d ≠ '"' ∧ d ≠ 'n' ∧ d ≠ 't' ∧ d ≠ 'f' := by
    rcases hd with hd | hd
    · subst hd; decide
    · refine ⟨?_, ?_, ?_, ?_, ?_, ?_⟩ <;> (intro h; subst h; revert hd; decide)
  obtain ⟨h1, h2, h3, h4, h5, h6⟩ := hne
  simp only [List.cons_append] at hnum ⊢
  simp only [parse, skipWS_cons_of_not_space d _ hsp, h1, h2, h3, h4, h5, h6, if_false, hnum,
    Option.map_some']

theorem scanString_plain (key rest : List Char) (h : ∀ c ∈ key, isPlain c = true) :
    scanString .plain (key ++ '"' :: rest) = some (key, rest) := by
  induction key with
  | nil => simp [scanString]
  | cons a t ih =>
    have ha := h a (List.mem_cons_self _ _)
    simp only [isPlain, Bool.and_eq_true, decide_eq_true_eq] at ha
    obtain ⟨⟨h1, h2⟩, h3⟩ := ha
    have := ih (fun c hc => h c (List.mem_cons_of_mem _ hc))
    simp [scanString, h1, h2, h3, this]

/-- Entering an object that is not empty. -/
theorem parse_object_open (f depth : Nat) (c : Char) (r : List Char) (hd : depth < maxNestingDepth)
    (hsp : isSpace c = false) (hc : c ≠ '}') :
    parse (f + 1) depth .value ('{' :: c :: r) = parse f (depth + 1) (.members []) (c :: r) := by
  have h0 : skipWS ('{' :: c :: r) = '{' :: c :: r := skipWS_cons_of_not_space _ _ (by decide)
  have hnd : ¬ depth ≥ maxNestingDepth := by omega
  simp only [parse, h0, skipWS_cons_of_not_space c r hsp, hc, hnd, if_true, if_false]

/-- Reading one member of an object whose key is plain text and whose value is
followed directly by a comma. -/
theorem parse_member_comma (f depth : Nat) (acc : List (List Char × JSON)) (key rest r : List Char)
    (v : JSON) (hkey : ∀ c ∈ key, isPlain c = true)
    (hv : parse f depth .value rest = some (v, ',' :: r)) :
    parse (f + 1) depth (.members acc) ('"' :: (key ++ '"' :: ':' :: rest)) =
      parse f depth (.members (acc ++ [(key, v)])) r := by
  have h0 : ∀ l, skipWS ('"' :: l) = '"' :: l := fun l => skipWS_cons_of_not_space _ _ (by decide)
  have h1 : ∀ l, skipWS (':' :: l) = ':' :: l := fun l => skipWS_cons_of_not_space _ _ (by decide)
  have h2 : ∀ l, skipWS (',' :: l) = ',' :: l := fun l => skipWS_cons_of_not_space _ _ (by decide)
  simp only [parse, h0, h1, h2, scanString_plain key _ hkey, hv, if_true]

/-- Reading the last member of an object, whose value is followed directly by
the closing brace. -/
theorem parse_member_close (f depth : Nat) (acc : List (List Char × JSON)) (key rest r : List Char)
    (v : JSON) (hkey : ∀ c ∈ key, isPlain c = true)
    (hv : parse f depth .value rest = some (v, '}' :: r)) :
    parse (f + 1) depth (.members acc) ('"' :: (key ++ '"' :: ':' :: rest)) =
      some (.obj (acc ++ [(key, v)]), r) := by
  have h0 : ∀ l, skipWS ('"' :: l) = '"' :: l := fun l => skipWS_cons_of_not_space _ _ (by decide)
  have h1 : ∀ l, skipWS (':' :: l) = ':' :: l := fun l => skipWS_cons_of_not_space _ _ (by decide)
  have h2 : ∀ l, skipWS ('}' :: l) = '}' :: l := fun l => skipWS_cons_of_not_space _ _ (by decide)
  have h3 : ('}' : Char) ≠ ',' := by decide
  simp only [parse, h0, h1, h2, scanString_plain key _ hkey, hv, h3, if_true, if_false]

theorem parse_marshalEvent (f : Nat) (e : event) :
    parse (f + 3) 0 .value (marshalEvent e) = some (.obj [(idName, .num (intDigits e.ID.val))], []) := by
  have hv := parse_value_intDigits f 1 e.ID.val '}' [] endsNumber_rbrace
  have hm := parse_member_close (f + 1) 1 [] idName _ [] _ (by decide) hv
  have ho := parse_object_open (f + 2) 0 '"' (idName ++ '"' :: ':' :: (intDigits e.ID.val ++ ['}']))
    (by decide) (by decide) (by decide)
  rw [hm] at ho
  exact ho

theorem unmarshalEvent_marshalEvent (e : event) : unmarshalEvent (marshalEvent e) = .ok e := by
  have hlen : ∃ f, 2 * (marshalEvent e).length + 2 = f + 3 :=
    ⟨2 * (marshalEvent e).length - 1, by simp [marshalEvent]; omega⟩
  obtain ⟨f, hf⟩ := hlen
  have hk : keyMatches idName idName = true := by decide
  simp only [unmarshalEvent, parseJSON, hf, parse_marshalEvent, skipWS, List.dropWhile, if_true,
    decodeEventFields, hk, decodeInt, parseInt_intDigits, List.nil_append]

theorem take2_pad2 (n : Nat) (r : List Char) (h : n < 100) : take2 (pad2 n ++ r) = some (n, r) := by
  have h1 := digitVal_digitChar (n / 10 % 10) (by omega)
  have h2 := digitVal_digitChar (n % 10) (by omega)
  simp only [pad2, List.cons_append, List.nil_append, take2, isDigit_digitChar, Bool.and_self, if_true,
    h1, h2]
  congr 2
  omega

theorem take4_pad4 (n : Nat) (r : List Char) (h : n < 10000) : take4 (pad4 n ++ r) = some (n, r) := by
  have h1 := digitVal_digitChar (n / 1000 % 10) (by omega)
  have h2 := digitVal_digitChar (n / 100 % 10) (by omega)
  have h3 := digitVal_digitChar (n / 10 % 10) (by omega)
  have h4 := digitVal_digitChar (n % 10) (by omega)
  simp only [pad4, List.cons_append, List.nil_append, take4, isDigit_digitChar, Bool.and_self, if_true,
    h1, h2, h3, h4]
  congr 2
  omega

theorem digitsVal_lt (l : List Char) (h : ∀ c ∈ l, isDigit c = true) : digitsVal l < 10 ^ l.length := by
  induction l using List.reverseRecOn with
  | nil => simp [digitsVal]
  | append_singleton t c ih =>
    have hc : isDigit c = true := h c (by simp)
    have ht := ih (fun x hx => h x (by simp [hx]))
    have hv : digitVal c < 10 := by
      simp only [isDigit, Bool.and_eq_true, decide_eq_true_eq] at hc
      unfold digitVal; omega
    rw [digitsVal_append_single, List.length_append, List.length_singleton, pow_succ]
    omega

theorem pad9_isDigit (n : Nat) : ∀ c ∈ pad9 n, isDigit c = true := by
  intro c hc
  simp only [pad9, List.mem_cons, List.mem_singleton, List.not_mem_nil, or_false] at hc
  rcases hc with h | h | h | h | h | h | h | h | h <;> (subst h; exact isDigit_digitChar _)

theorem digitChar_eq_zero (d : Nat) (hd : d < 10) (h : digitChar d = '0') : d = 0 := by
  interval_cases d <;> first | rfl | (revert h; decide)

theorem pad9_trim_ne_nil (n : Nat) (h0 : n ≠ 0) (h : n < 1000000000) :
    (pad9 n).rdropWhile (fun c => decide (c = '0')) ≠ [] := by
  intro hnil
  rw [List.rdropWhile_eq_nil_iff] at hnil
  have e := fun c hc => of_decide_eq_true (hnil c hc)
  have e1 := digitChar_eq_zero _ (by omega) (e (digitChar (n / 100000000 % 10)) (by simp [pad9]))
  have e2 := digitChar_eq_zero _ (by omega) (e (digitChar (n / 10000000 % 10)) (by simp [pad9]))
  have e3 := digitChar_eq_zero _ (by omega) (e (digitChar (n / 1000000 % 10)) (by simp [pad9]))
  have e4 := digitChar_eq_zero _ (by omega) (e (digitChar (n / 100000 % 10)) (by simp [pad9]))
  have e5 := digitChar_eq_zero _ (by omega) (e (digitChar (n / 10000 % 10)) (by simp [pad9]))
  have e6 := digitChar_eq_zero _ (by omega) (e (digitChar (n / 1000 % 10)) (by simp [pad9]))
  have e7 := digitChar_eq_zero _ (by omega) (e (digitChar (n / 100 % 10)) (by simp [pad9]))
  have e8 := digitChar_eq_zero _ (by omega) (e (digitChar (n / 10 % 10)) (by simp [pad9]))
  have e9 := digitChar_eq_zero _ (by omega) (e (digitChar (n % 10)) (by simp [pad9]))
  omega

theorem pad9_trim_isDigit (n : Nat) :
    ∀ c ∈ (pad9 n).rdropWhile (fun c => decide (c = '0')), isDigit c = true := fun c hc =>
  pad9_isDigit n c ((List.rdropWhile_prefix _ _).subset hc)

theorem formatZone_head (off : Int) :
    ∃ z t, formatZone off = z :: t ∧ (z = 'Z' ∨ z = '+' ∨ z = '-') := by
  unfold formatZone
  split
  · exact ⟨'Z', [], rfl, Or.inl rfl⟩
  · split
    · exact ⟨'-', _, rfl, Or.inr (Or.inr rfl)⟩
    · exact ⟨'+', _, rfl, Or.inr (Or.inl rfl)⟩

theorem parseNanos_formatNano (ns : Nat) (off : Int) (h : ns < 1000000000) :
    ∃ v, parseNanos (formatNano ns ++ formatZone off) = some (v, formatZone off) ∧ v < 1000000000 := by
  obtain ⟨z, t, hz, hzc⟩ := formatZone_head off
  have hzd : isDigit z = false := by rcases hzc with h | h | h <;> (subst h; decide)
  have hzp : z ≠ '.' := by rcases hzc with h | h | h <;> (subst h; decide)
  unfold formatNano
  split
  · refine ⟨0, ?_, by omega⟩
    rw [hz]
    simp [parseNanos, hzp]
  · rename_i h0
    have hsp := span_isDigit_append _ z t (pad9_trim_isDigit ns) hzd
    have hne := pad9_trim_ne_nil ns h0 h
    refine ⟨digitsVal ((((pad9 ns).rdropWhile (fun c => decide (c = '0'))) ++ List.replicate 9 '0').take 9),
      ?_, ?_⟩
    · rw [hz]
      simp only [List.cons_append, parseNanos, if_true, hsp, hne, if_false]
    · have hd : ∀ c ∈ ((((pad9 ns).rdropWhile (fun c => decide (c = '0'))) ++ List.replicate 9 '0').take 9),
          isDigit c = true := by
        intro c hc
        have hc' := List.mem_of_mem_take hc
        rw [List.mem_append] at hc'
        rcases hc' with hc' | hc'
        · exact pad9_trim_isDigit ns c hc'
        · rw [List.mem_replicate] at hc'
          rw [hc'.2]; decide
      have hl := digitsVal_lt _ hd
      have hlen : ((((pad9 ns).rdropWhile (fun c => decide (c = '0'))) ++ List.replicate 9 '0').take 9).length ≤ 9 := by
        simp
      calc _ < 10 ^ _ := hl
        _ ≤ 10 ^ 9 := Nat.pow_le_pow_right (by omega) hlen
        _ = 1000000000 := by norm_num

theorem parseZone_sign (s : Char) (a : Nat) (ha : a < 1440) (hs : s = '+' ∨ s = '-') :
    parseZone (s :: (pad2 (a / 60) ++ ':' :: pad2 (a % 60))) =
      some (if s = '-' then -(((a / 60 * 60 + a % 60) * 60 : Nat) : Int)
        else (((a / 60 * 60 + a % 60) * 60 : Nat) : Int)) := by
  have t1 := take2_pad2 (a / 60) (':' :: pad2 (a % 60)) (by omega)
  have t2 := take2_pad2 (a % 60) [] (by omega)
  simp only [List.append_nil] at t2
  have hh : a / 60 < 24 := by omega
  have hm : a % 60 < 60 := by omega
  have hz : s ≠ 'Z' := by rcases hs with h | h <;> (subst h; decide)
  simp only [parseZone, hz, hs, if_true, if_false, t1, expectChar, t2, hh, hm, and_self]

theorem parseZone_formatZone (off : Int) (h1 : -86400 < off) (h2 : off < 86400) :
    ∃ v, parseZone (formatZone off) = some v ∧ -86400 < v ∧ v < 86400 := by
  unfold formatZone
  split
  · exact ⟨0, by simp [parseZone], by omega, by omega⟩
  · have ha : (Int.tdiv off 60).natAbs < 1440 := by
      rw [Int.natAbs_tdiv]
      show off.natAbs / 60 < 1440
      omega
    generalize (Int.tdiv off 60).natAbs = a at ha
    split
    · refine ⟨_, parseZone_sign '-' a ha (Or.inr rfl), ?_, ?_⟩ <;> simp only [if_true] <;> omega
    · refine ⟨_, parseZone_sign '+' a ha (Or.inl rfl), ?_, ?_⟩ <;>
        simp only [show ('+' : Char) ≠ '-' by decide, if_false] <;> omega

/-! ## JSON text of the payload structs -/

theorem validClock_iff (y : Int) (mo d h mi s ns : Nat) (off : Int) :
    validClock y mo d h mi s ns off = true ↔
      (1 ≤ mo ∧ mo ≤ 12 ∧ 1 ≤ d ∧ d ≤ daysIn y mo ∧ h < 24 ∧ mi < 60 ∧ s < 60 ∧ ns < 1000000000
        ∧ -86400 < off ∧ off < 86400) := by
  simp [validClock]

theorem daysIn_le (y : Int) (m : Nat) : daysIn y m ≤ 31 := by
  unfold daysIn
  split
  · split <;> omega
  · split <;> omega

/-- The text `Time.MarshalJSON` writes for a year of four digits is read back by
the RFC 3339 reader. -/
theorem parseRFC3339_format (t : Time) (hy0 : 0 ≤ t.year) (hy1 : t.year < 10000) :
    ∃ t2, parseRFC3339 (formatRFC3339Nano t) = some t2 := by
  obtain ⟨y, mo, d, h, mi, s, ns, off, wf⟩ := t
  simp only at hy0 hy1
  have hv := (validClock_iff _ _ _ _ _ _ _ _).1 wf
  obtain ⟨hm1, hm2, hd1, hd2, hh, hmi, hs, hns, ho1, ho2⟩ := hv
  have hdl := daysIn_le y mo
  obtain ⟨nv, hnv, hnvlt⟩ := parseNanos_formatNano ns off hns
  obtain ⟨zv, hzv, hz1, hz2⟩ := parseZone_formatZone off ho1 ho2
  have hyc : ((y.toNat : Nat) : Int) = y := Int.toNat_of_nonneg hy0
  have hvalid : validClock ((y.toNat : Nat) : Int) mo d h mi s nv zv = true := by
    rw [hyc]
    exact (validClock_iff _ _ _ _ _ _ _ _).2 ⟨hm1, hm2, hd1, hd2, hh, hmi, hs, hnvlt, hz1, hz2⟩
  refine ⟨⟨((y.toNat : Nat) : Int), mo, d, h, mi, s, nv, zv, hvalid⟩, ?_⟩
  simp only [formatRFC3339Nano, parseRFC3339, parseDate, parseClock, parseTail,
    take4_pad4 y.toNat _ (by omega), take2_pad2 mo _ (by omega), take2_pad2 d _ (by omega),
    take2_pad2 h _ (by omega), take2_pad2 mi _ (by omega), take2_pad2 s _ (by omega),
    expectChar, if_true, hnv, hzv, mkTime, hvalid, dite_true]

theorem isPlain_of_isDigit (c : Char) (h : isDigit c = true) : isPlain c = true := by
  simp only [isDigit, Bool.and_eq_true, decide_eq_true_eq] at h
  simp only [isPlain, Bool.and_eq_true, decide_eq_true_eq]
  refine ⟨⟨?_, ?_⟩, by omega⟩ <;> (intro hc; subst hc; revert h; decide)

theorem pad2_isPlain (n : Nat) : ∀ c ∈ pad2 n, isPlain c = true := by
  intro c hc
  simp only [pad2, List.mem_cons, List.mem_singleton, List.not_mem_nil, or_false] at hc
  rcases hc with h | h <;> (subst h; exact isPlain_of_isDigit _ (isDigit_digitChar _))

theorem pad4_isPlain (n : Nat) : ∀ c ∈ pad4 n, isPlain c = true := by
  intro c hc
  simp only [pad4, List.mem_cons, List.mem_singleton, List.not_mem_nil, or_false] at hc
  rcases hc with h | h | h | h <;> (subst h; exact isPlain_of_isDigit _ (isDigit_digitChar _))

theorem formatNano_isPlain (ns : Nat) : ∀ c ∈ formatNano ns, isPlain c = true := by
  intro c hc
  unfold formatNano at hc
  split at hc
  · simp at hc
  · rw [List.mem_cons] at hc
    rcases hc with h | h
    · subst h; decide
    · exact isPlain_of_isDigit _ (pad9_trim_isDigit ns c h)

theorem formatZone_isPlain (off : Int) : ∀ c ∈ formatZone off, isPlain c = true := by
  intro c hc
  unfold formatZone at hc
  split at hc
  · simp at hc; subst hc; decide
  · split at hc
    · simp only [List.mem_cons, List.mem_append] at hc
      rcases hc with h | h | h | h
      · subst h; decide
      · exact pad2_isPlain _ c h
      · subst h; decide
      · exact pad2_isPlain _ c h
    · simp only [List.mem_cons, List.mem_append] at hc
      rcases hc with h | h | h | h
      · subst h; decide
      · exact pad2_isPlain _ c h
      · subst h; decide
      · exact pad2_isPlain _ c h

theorem formatRFC3339Nano_isPlain (t : Time) : ∀ c ∈ formatRFC3339Nano t, isPlain c = true := by
  intro c hc
  simp only [formatRFC3339Nano, List.mem_append, List.mem_cons] at hc
  rcases hc with h | h | h | h | h | h | h | h | h | h | h | h | h
  · exact pad4_isPlain _ c h
  · subst h; decide
  · exact pad2_isPlain _ c h
  · subst h; decide
  · exact pad2_isPlain _ c h
  · subst h; decide
  · exact pad2_isPlain _ c h
  · subst h; decide
  · exact pad2_isPlain _ c h
  · subst h; decide
  · exact pad2_isPlain _ c h
  · exact formatNano_isPlain _ c h
  · exact formatZone_isPlain _ c h

/-- Reading one value that is a string of plain text. -/
theorem parse_value_string (f depth : Nat) (s rest : List Char) (hs : ∀ c ∈ s, isPlain c = true) :
    parse (f + 1) depth .value ('"' :: (s ++ '"' :: rest)) = some (.str s, rest) := by
  have h0 : ∀ l, skipWS ('"' :: l) = '"' :: l := fun l => skipWS_cons_of_not_space _ _ (by decide)
  simp only [parse, h0, show ('"' : Char) ≠ '{' by decide, show ('"' : Char) ≠ '[' by decide,
    if_true, if_false, scanString_plain s rest hs, Option.map_some']

theorem parse_processedEvent_text (f : Nat) (n : Int) (s : List Char)
    (hs : ∀ c ∈ s, isPlain c = true) :
    parse (f + 4) 0 .value
      ('{' :: '"' :: (processedIdName ++ '"' :: ':' :: (intDigits n ++
        ',' :: '"' :: (timeName ++ '"' :: ':' :: '"' :: (s ++ '"' :: ['}']))))) =
      some (.obj [(processedIdName, .num (intDigits n)), (timeName, .str s)], []) := by
  have hv2 := parse_value_string f 1 s ['}'] hs
  have hm2 := parse_member_close (f + 1) 1 [(processedIdName, .num (intDigits n))] timeName
    ('"' :: (s ++ '"' :: ['}'])) [] (.str s) (by decide) hv2
  have hv1 := parse_value_intDigits (f + 1) 1 n ','
    ('"' :: (timeName ++ '"' :: ':' :: '"' :: (s ++ '"' :: ['}']))) endsNumber_comma
  have hm1 := parse_member_comma (f + 2) 1 [] processedIdName _ _ _ (by decide) hv1
  have ho := parse_object_open (f + 3) 0 '"'
    (processedIdName ++ '"' :: ':' :: (intDigits n ++
        ',' :: '"' :: (timeName ++ '"' :: ':' :: '"' :: (s ++ '"' :: ['}']))))
    (by decide) (by decide) (by decide)
  rw [ho, hm1, List.nil_append, hm2]
  rfl

/-- Whenever the encoding of a `processedEvent` succeeds, decoding the bytes
succeeds and gives back the same `processed_id`. -/
theorem unmarshal_marshalProcessedEvent (p : processedEvent) (bs : Bytes)
    (h : marshalProcessedEvent p = .ok bs) :
    ∃ q, unmarshalProcessedEvent bs = .ok q ∧ q.ProcessedID = p.ProcessedID := by
  obtain ⟨n, t⟩ := p
  by_cases hy : 0 ≤ t.year ∧ t.year < 10000
  · simp only [marshalProcessedEvent, Time.MarshalJSON, hy, and_self, if_true, Except.ok.injEq] at h
    obtain ⟨t2, ht2⟩ := parseRFC3339_format t hy.1 hy.2
    have hbs : bs = '{' :: '"' :: (processedIdName ++ '"' :: ':' :: (intDigits n.val ++
        ',' :: '"' :: (timeName ++ '"' :: ':' :: '"' :: (formatRFC3339Nano t ++ '"' :: ['}'])))) := by
      rw [← h]; simp
    have hlen : ∃ f, 2 * bs.length + 2 = f + 4 := ⟨2 * bs.length - 2, by rw [hbs]; simp⟩
    obtain ⟨f, hf⟩ := hlen
    have hp := parse_processedEvent_text f n.val _ (formatRFC3339Nano_isPlain t)
    rw [← hbs] at hp
    have hk1 : keyMatches processedIdName processedIdName = true := by decide
    have hk2 : keyMatches processedIdName timeName = false := by decide
    have hk3 : keyMatches timeName timeName = true := by decide
    refine ⟨⟨n, t2⟩, ?_, rfl⟩
    simp only [unmarshalProcessedEvent, parseJSON, hf, hp, skipWS, List.dropWhile, if_true,
      decodeProcessedFields, hk1, hk2, hk3, decodeInt, parseInt_intDigits, Time.UnmarshalJSON, ht2]
    simp
  · simp only [marshalProcessedEvent, Time.MarshalJSON, hy, if_false] at h
    cases h

theorem marshalProcessedEvent_ok (n : GoInt) (t : Time) (hy0 : 0 ≤ t.year) (hy1 : t.year < 10000) :
    ∃ bs, marshalProcessedEvent ⟨n, t⟩ = .ok bs := by
  simp [marshalProcessedEvent, Time.MarshalJSON, hy0, hy1]

theorem marshalProcessedEvent_error (n : GoInt) (t : Time) (hy : ¬ (0 ≤ t.year ∧ t.year < 10000)) :
    marshalProcessedEvent ⟨n, t⟩ = .error .marshalerError := by
  simp only [marshalProcessedEvent, Time.MarshalJSON, hy, if_false]

/-! ## The processing function -/

theorem handler_decode_error (now : Time) (uuid : GoString) (msg : Message) (err : GoError)
    (h : unmarshalEvent msg.Payload = .error err) :
    handler now uuid msg = ⟨[], some err⟩ := by
  simp only [handler, h]

theorem handler_encode_error (now : Time) (uuid : GoString) (msg : Message) (e : event)
    (h : unmarshalEvent msg.Payload = .ok e) (hy : ¬ (0 ≤ now.year ∧ now.year < 10000)) :
    handler now uuid msg = ⟨[], some .marshalerError⟩ := by
  simp only [handler, h, marshalProcessedEvent_error e.ID now hy]

theorem handler_ok (now : Time) (uuid : GoString) (msg : Message) (e : event)
    (h : unmarshalEvent msg.Payload = .ok e) (hy0 : 0 ≤ now.year) (hy1 : now.year < 10000) :
    ∃ bs, marshalProcessedEvent ⟨e.ID, now⟩ = .ok bs ∧
      handler now uuid msg = ⟨[NewMessage uuid bs], none⟩ := by
  obtain ⟨bs, hbs⟩ := marshalProcessedEvent_ok e.ID now hy0 hy1
  exact ⟨bs, hbs, by simp only [handler, h, hbs]⟩

theorem handler_transforms (d : Delivery) (e : event)
    (h : unmarshalEvent d.msg.Payload = .ok e) (hy0 : 0 ≤ d.now.year) (hy1 : d.now.year < 10000) :
    ∃ m, handler d.now d.uuid d.msg = ⟨[m], none⟩ ∧ Transforms d m := by
  obtain ⟨bs, hbs, hh⟩ := handler_ok d.now d.uuid d.msg e h hy0 hy1
  obtain ⟨q, hq, hid⟩ := unmarshal_marshalProcessedEvent _ bs hbs
  exact ⟨NewMessage d.uuid bs, hh, e, q, h, hq, hid⟩

theorem outputs_forall₂ (ds : List Delivery)
    (h : ∀ d ∈ ds, (∃ e, unmarshalEvent d.msg.Payload = .ok e) ∧ 0 ≤ d.now.year ∧ d.now.year < 10000) :
    List.Forall₂ Transforms ds (outputs ds) := by
  induction ds with
  | nil => exact List.Forall₂.nil
  | cons d t ih =>
    obtain ⟨⟨e, he⟩, hy0, hy1⟩ := h d (List.mem_cons_self _ _)
    obtain ⟨m, hm, htr⟩ := handler_transforms d e he hy0 hy1
    have ht := ih (fun x hx => h x (List.mem_cons_of_mem _ hx))
    have : outputs (d :: t) = m :: outputs t := by
      simp [outputs, hm]
    rw [this]
    exact List.Forall₂.cons htr ht

theorem handler_cases (now : Time) (uuid : GoString) (msg : Message) :
    (∃ m, handler now uuid msg = ⟨[m], none⟩) ∨ (∃ err, handler now uuid msg = ⟨[], some err⟩) := by
  unfold handler
  cases h1 : unmarshalEvent msg.Payload with
  | error err => exact Or.inr ⟨err, rfl⟩
  | ok e =>
    cases h2 : marshalProcessedEvent ⟨e.ID, now⟩ with
    | error err => exact Or.inr ⟨err, by simp only [h2]⟩
    | ok bs => exact Or.inl ⟨NewMessage uuid bs, by simp only [h2]⟩

theorem unmarshalEvent_payloadFive : unmarshalEvent payloadFive = .ok ⟨five⟩ := by rfl

theorem unmarshalEvent_garbage : unmarshalEvent msgGarbage.Payload = .error .syntaxError := by rfl


/-! ## The producer loop -/

theorem wrapInt_of_inRange (x : Int) (h1 : minInt ≤ x) (h2 : x ≤ maxInt) : wrapInt x = x := by
  unfold wrapInt
  unfold minInt at h1
  unfold maxInt at h2
  omega

theorem GoInt.wrap_zero : GoInt.wrap 0 = GoInt.zero := by decide

theorem GoInt.incr_wrap (x : Int) : (GoInt.wrap x).incr = GoInt.wrap (x + 1) := by
  have : wrapInt (wrapInt x + 1) = wrapInt (x + 1) := by
    unfold wrapInt
    omega
  simp only [GoInt.incr, GoInt.wrap, this]

theorem GoInt.wrap_val_of_lt (j : Nat) (h : j < 9223372036854775808) : (GoInt.wrap j).val = j := by
  show wrapInt j = j
  exact wrapInt_of_inRange _ (by unfold minInt; omega) (by unfold maxInt; omega)

theorem simulateEvents_panic_mono (w : World) (p : Publisher) (n : Nat)
    (h : (simulateEvents w p (n + 1)).panic = none) : (simulateEvents w p n).panic = none := by
  cases hp : (simulateEvents w p n).panic with
  | none => rfl
  | some err =>
    have : simulateEvents w p (n + 1) = simulateEvents w p n := by
      simp only [simulateEvents, simulateEventsStep, hp]
    rw [this, hp] at h
    cases h

/-- While nothing has failed, the counter is the number of passes (as an `int`)
and the calls made are those of the passes so far. -/
theorem simulateEvents_running (w : World) (p : Publisher) (n : Nat)
    (h : (simulateEvents w p n).panic = none) :
    (simulateEvents w p n).i = GoInt.wrap n ∧
      (simulateEvents w p n).calls = (List.range n).map (producerCall w) := by
  induction n with
  | zero => exact ⟨GoInt.wrap_zero.symm, rfl⟩
  | succ n ih =>
    have hn := simulateEvents_panic_mono w p n h
    obtain ⟨hi, hc⟩ := ih hn
    have hlen : (simulateEvents w p n).calls.length = n := by simp [hc]
    simp only [simulateEvents, simulateEventsStep, hn] at h ⊢
    cases hpub : w.publishErr p (simulateEvents w p n).calls consumeTopic
        (NewMessage (w.uuid (simulateEvents w p n).calls.length)
          (marshalEvent ⟨(simulateEvents w p n).i⟩)) with
    | some err => simp only [hpub] at h; cases h
    | none =>
      simp only [hpub]
      refine ⟨?_, ?_⟩
      · rw [hi, GoInt.incr_wrap]; rfl
      · rw [hlen, hi, hc, List.range_succ, List.map_append]
        rfl

/-- The pass after a state in which nothing has failed makes exactly one more
call, the one of that pass, whether or not that call fails. -/
theorem simulateEvents_next_call (w : World) (p : Publisher) (n : Nat)
    (h : (simulateEvents w p n).panic = none) :
    (simulateEvents w p (n + 1)).calls = (List.range (n + 1)).map (producerCall w) := by
  obtain ⟨hi, hc⟩ := simulateEvents_running w p n h
  have hlen : (simulateEvents w p n).calls.length = n := by simp [hc]
  simp only [simulateEvents, simulateEventsStep, h]
  cases hpub : w.publishErr p (simulateEvents w p n).calls consumeTopic
      (NewMessage (w.uuid (simulateEvents w p n).calls.length)
        (marshalEvent ⟨(simulateEvents w p n).i⟩)) with
  | some err =>
    simp only [hpub]
    rw [hlen, hi, hc, List.range_succ, List.map_append]
    rfl
  | none =>
    simp only [hpub]
    rw [hlen, hi, hc, List.range_succ, List.map_append]
    rfl

/-- A failed publish ends the loop in a panic with the error of the publish. -/
theorem simulateEvents_publish_fails (w : World) (p : Publisher) (n : Nat) (err : GoError)
    (h : (simulateEvents w p n).panic = none)
    (hpub : w.publishErr p (simulateEvents w p n).calls consumeTopic
      (producerCall w n).msg = some err) :
    (simulateEvents w p (n + 1)).panic = some err := by
  obtain ⟨hi, hc⟩ := simulateEvents_running w p n h
  have hlen : (simulateEvents w p n).calls.length = n := by simp [hc]
  simp only [producerCall] at hpub
  simp only [simulateEvents, simulateEventsStep, h, hlen, hi, hpub]

/-- After a panic the loop makes no further call. -/
theorem simulateEvents_after_panic (w : World) (p : Publisher) (n k : Nat) (err : GoError)
    (h : (simulateEvents w p n).panic = some err) :
    simulateEvents w p (n + k) = simulateEvents w p n := by
  induction k with
  | zero => rfl
  | succ k ih =>
    show simulateEventsStep w p (simulateEvents w p (n + k)) = _
    rw [ih]
    simp only [simulateEventsStep, h]

theorem quietWorld_never_panics (p : Publisher) (n : Nat) :
    (simulateEvents quietWorld p n).panic = none := by
  induction n with
  | zero => rfl
  | succ n ih =>
    simp only [simulateEvents, simulateEventsStep, ih]
    rfl

/-! ## The text of a ULID -/

theorem encodeChar_lt : ∀ a b : Fin 32, a < b → encodeChar a.val < encodeChar b.val := by
  decide

theorem encodeChar_strictMono (a b : Nat) (hab : a < b) (hb : b < 32) :
    encodeChar a < encodeChar b :=
  encodeChar_lt ⟨a, by omega⟩ ⟨b, hb⟩ hab

theorem base32_length (w n : Nat) : (base32 w n).length = w := by
  induction w generalizing n with
  | zero => rfl
  | succ w ih => simp [base32, ih]

theorem strLt_cons_self (c : Char) (s t : GoString) : strLt (c :: s) (c :: t) = strLt s t := by
  simp [strLt]

theorem strLt_cons_lt (a b : Char) (s t : GoString) (h : a < b) : strLt (a :: s) (b :: t) = true := by
  simp [strLt, h]

theorem strLt_irrefl (s : GoString) : strLt s s = false := by
  induction s with
  | nil => rfl
  | cons c t ih => rw [strLt_cons_self, ih]

theorem strLt_append_left (s u v : GoString) : strLt (s ++ u) (s ++ v) = strLt u v := by
  induction s with
  | nil => rfl
  | cons c t ih => rw [List.cons_append, List.cons_append, strLt_cons_self, ih]

theorem strLt_asymm (s t : GoString) (h : strLt s t = true) : strLt t s = false := by
  induction s generalizing t with
  | nil =>
    cases t with
    | nil => rfl
    | cons b t => rfl
  | cons a s ih =>
    cases t with
    | nil => simp [strLt] at h
    | cons b t =>
      simp only [strLt] at h ⊢
      by_cases hab : a < b
      · have hba : ¬ b < a := lt_asymm hab
        simp [hab, hba]
      · by_cases hba : b < a
        · simp [hab, hba] at h
        · simp only [hab, hba, if_false] at h ⊢
          exact ih t h

/-- The base-32 text keeps the order of the numbers, whatever follows it. -/
theorem base32_lt (w a b : Nat) (u v : GoString) (hab : a < b) (hb : b < 32 ^ w) :
    strLt (base32 w a ++ u) (base32 w b ++ v) = true := by
  induction w generalizing a b with
  | zero => simp at hb; omega
  | succ w ih =>
    have hpos : 0 < 32 ^ w := Nat.pow_pos (by omega)
    have hbq : b / 32 ^ w < 32 := by
      rw [Nat.div_lt_iff_lt_mul hpos]
      calc b < 32 ^ (w + 1) := hb
        _ = 32 * 32 ^ w := by rw [pow_succ, Nat.mul_comm]
    have haq : a / 32 ^ w ≤ b / 32 ^ w := Nat.div_le_div_right (Nat.le_of_lt hab)
    simp only [base32, List.cons_append]
    rcases Nat.lt_or_eq_of_le haq with hlt | heq
    · rw [Nat.mod_eq_of_lt (by omega : a / 32 ^ w < 32), Nat.mod_eq_of_lt hbq]
      exact strLt_cons_lt _ _ _ _ (encodeChar_strictMono _ _ hlt hbq)
    · rw [heq, strLt_cons_self]
      have hmod : a % 32 ^ w < b % 32 ^ w := by
        have ha := Nat.div_add_mod a (32 ^ w)
        have hb' := Nat.div_add_mod b (32 ^ w)
        rw [heq] at ha
        omega
      exact ih (a % 32 ^ w) (b % 32 ^ w) hmod (Nat.mod_lt _ hpos)

/-- On numbers below `32 ^ w` the order of the base-32 texts is the order of the
numbers. -/
theorem base32_lt_iff (w a b : Nat) (ha : a < 32 ^ w) (hb : b < 32 ^ w) :
    strLt (base32 w a) (base32 w b) = true ↔ a < b := by
  constructor
  · intro h
    by_contra hn
    rcases Nat.lt_or_eq_of_le (Nat.le_of_not_lt hn) with hlt | heq
    · have := base32_lt w b a [] [] hlt ha
      simp only [List.append_nil] at this
      rw [strLt_asymm _ _ h] at this
      cases this
    · rw [heq, strLt_irrefl] at h
      cases h
  · intro h
    have := base32_lt w a b [] [] h hb
    simpa using this

theorem NewULID_returns (ms : Nat) (e : Entropy) (h : ms ≤ maxTime) :
    NewULID ms (.ok e) = .returned (base32 10 ms ++ base32 16 e.val) := by
  have : ¬ ms > maxTime := by omega
  simp only [NewULID, this, if_false]

/-! # The claims -/

/-- C1 (as amended): whenever the payload of every delivered input decodes to an
event and the clock reading of every delivery has a year in 0..9999 (so that
encoding the `processedEvent` succeeds), the processing function returns, for
each delivery, a nil error and exactly one output message whose payload decodes
to a `processedEvent` with the `processed_id` equal to the input's `id`; and
over the whole sequence there are exactly as many outputs as inputs, the i-th
output being the transformation of the i-th input. -/
theorem handler_one_output_per_decodable_input (ds : List Delivery)
    (h : ∀ d ∈ ds, (∃ e, unmarshalEvent d.msg.Payload = .ok e) ∧ 0 ≤ d.now.year ∧ d.now.year < 10000) :
    (∀ d ∈ ds, ∃ m, handler d.now d.uuid d.msg = ⟨[m], none⟩ ∧ Transforms d m) ∧
      (outputs ds).length = ds.length ∧ List.Forall₂ Transforms ds (outputs ds) := by
  have hall := outputs_forall₂ ds h
  refine ⟨?_, hall.length_eq.symm, hall⟩
  intro d hd
  obtain ⟨⟨e, he⟩, hy0, hy1⟩ := h d hd
  exact handler_transforms d e he hy0 hy1

/-- C1, witness: the delivery of `{"id":5}` under a clock of the year 2024 meets
the hypotheses, so it yields exactly one output, with `processed_id` 5. -/
theorem handler_one_output_witness :
    (∀ d ∈ [deliveryFive],
        (∃ e, unmarshalEvent d.msg.Payload = .ok e) ∧ 0 ≤ d.now.year ∧ d.now.year < 10000) ∧
      ((∀ d ∈ [deliveryFive], ∃ m, handler d.now d.uuid d.msg = ⟨[m], none⟩ ∧ Transforms d m) ∧
        (outputs [deliveryFive]).length = [deliveryFive].length ∧
        List.Forall₂ Transforms [deliveryFive] (outputs [deliveryFive])) :=
  have hyp : ∀ d ∈ [deliveryFive],
      (∃ e, unmarshalEvent d.msg.Payload = .ok e) ∧ 0 ≤ d.now.year ∧ d.now.year < 10000 := by
    intro d hd
    rw [List.mem_singleton] at hd
    subst hd
    exact ⟨⟨⟨five⟩, unmarshalEvent_payloadFive⟩, by decide, by decide⟩
  ⟨hyp, handler_one_output_per_decodable_input [deliveryFive] hyp⟩

/-- C1, counterexample to the claim as stated: the payload `{"id":5}` decodes to
the event with id 5, and yet under a clock reading of the year 10000 the
processing function returns a non-nil error and no output message. -/
theorem handler_no_output_in_year_10000 :
    unmarshalEvent msgFive.Payload = .ok ⟨five⟩ ∧
      handler clockYear10000 freshId msgFive = ⟨[], some .marshalerError⟩ :=
  ⟨unmarshalEvent_payloadFive, by decide⟩

/-- C2: for every input message whose payload fails to decode as an event, the
processing function returns a non-nil error (the decoding error) and the nil
list of messages; and for every input whatsoever its result is either exactly
one message with a nil error, or no message with a non-nil error. -/
theorem handler_error_or_single (now : Time) (uuid : GoString) (msg : Message) :
    (∀ err, unmarshalEvent msg.Payload = .error err → handler now uuid msg = ⟨[], some err⟩) ∧
      ((∃ m, handler now uuid msg = ⟨[m], none⟩) ∨ (∃ err, handler now uuid msg = ⟨[], some err⟩)) :=
  ⟨fun err h => handler_decode_error now uuid msg err h, handler_cases now uuid msg⟩

/-- C2, witness: a payload that is not JSON fails to decode, and the processing
function returns the syntax error and no message. -/
theorem handler_error_witness :
    unmarshalEvent msgGarbage.Payload = .error .syntaxError ∧
      handler clockSample freshId msgGarbage = ⟨[], some .syntaxError⟩ :=
  ⟨unmarshalEvent_garbage,
    (handler_error_or_single clockSample freshId msgGarbage).1 .syntaxError unmarshalEvent_garbage⟩

/-- C3: round trip of the `event` payload: for every event value, encoding it as
the producer does and decoding the bytes as the processing function does
succeeds and gives back the same value. -/
theorem event_round_trip (x : event) : unmarshalEvent (marshalEvent x) = .ok x :=
  unmarshalEvent_marshalEvent x

/-- C5: the output message gets a new id that is not inherited from the input.
For every two input messages that differ only in their UUID (same payload),
processed under any clock readings while the generator hands out the same new
id `g` (new: it is the id of neither input), every output message carries `g`
as its UUID in both runs, and never the UUID of the input message. -/
theorem handler_output_id_not_inherited (now1 now2 : Time) (g : GoString) (m1 m2 : Message)
    (_hp : m1.Payload = m2.Payload) (_hu : m1.UUID ≠ m2.UUID)
    (hg1 : g ≠ m1.UUID) (hg2 : g ≠ m2.UUID) :
    (∀ out ∈ (handler now1 g m1).msgs, out.UUID = g ∧ out.UUID ≠ m1.UUID) ∧
      (∀ out ∈ (handler now2 g m2).msgs, out.UUID = g ∧ out.UUID ≠ m2.UUID) := by
  have hid : ∀ (now : Time) (m : Message), ∀ out ∈ (handler now g m).msgs, out.UUID = g := by
    intro now m out hout
    unfold handler at hout
    cases h1 : unmarshalEvent m.Payload with
    | error e1 => simp only [h1] at hout; cases hout
    | ok e =>
      cases h2 : marshalProcessedEvent ⟨e.ID, now⟩ with
      | error e2 => simp only [h1, h2] at hout; cases hout
      | ok bs =>
        simp only [h1, h2, List.mem_singleton] at hout
        rw [hout]
        rfl
  refine ⟨?_, ?_⟩
  · intro out hout
    have h := hid now1 m1 out hout
    exact ⟨h, by rw [h]; exact hg1⟩
  · intro out hout
    have h := hid now2 m2 out hout
    exact ⟨h, by rw [h]; exact hg2⟩

/-- C5, witness: two messages with the payload `{"id":5}` and different UUIDs,
processed one second apart under a new id: each run has exactly one output, and
it carries the new id, not the id of its input. -/
theorem handler_output_id_witness :
    (msgFive.Payload = msgFiveAgain.Payload ∧ msgFive.UUID ≠ msgFiveAgain.UUID ∧
        freshId ≠ msgFive.UUID ∧ freshId ≠ msgFiveAgain.UUID) ∧
      ((handler clockSample freshId msgFive).msgs.length = 1 ∧
        (handler clockLater freshId msgFiveAgain).msgs.length = 1) ∧
      (∀ out ∈ (handler clockSample freshId msgFive).msgs,
        out.UUID = freshId ∧ out.UUID ≠ msgFive.UUID) ∧
      (∀ out ∈ (handler clockLater freshId msgFiveAgain).msgs,
        out.UUID = freshId ∧ out.UUID ≠ msgFiveAgain.UUID) :=
  ⟨⟨rfl, by decide, by decide, by decide⟩, ⟨by decide, by decide⟩,
    handler_output_id_not_inherited clockSample clockLater freshId msgFive msgFiveAgain rfl
      (by decide) (by decide) (by decide)⟩

theorem producerCall_payload (w : World) (j : Nat) :
    (producerCall w j).msg.Payload = marshalEvent ⟨GoInt.wrap (j : Int)⟩ := rfl

/-- Below 2^63 the call of pass `j` carries the id `j`. -/
theorem producerCall_id (w : World) (j : Nat) (h : j < 9223372036854775808) :
    ((unmarshalEvent (producerCall w j).msg.Payload).toOption.map (fun e => e.ID.val)) =
      some (Int.ofNat j) := by
  rw [producerCall_payload, unmarshalEvent_marshalEvent]
  have hv : (GoInt.wrap (j : Int)).val = Int.ofNat j := GoInt.wrap_val_of_lt j h
  show some (GoInt.wrap (j : Int)).val = some (Int.ofNat j)
  rw [hv]

theorem marshalEvent_wrapped :
    marshalEvent ⟨GoInt.wrap 9223372036854775808⟩ = payloadMinInt := by
  decide

/-- C4 (as amended): for every k from 1 up to 2^63 (the values the `int` counter
runs through before it wraps), as long as no publish before the k-th has
failed, `simulateEvents` has made exactly k publish calls after k passes, one
per pass and all on the topic `events`; the k-th carries the payload encoding
`event{id: k-1}`; and the ids published, in order, are 0, 1, ..., k-1. -/
theorem simulateEvents_ids_in_order (w : World) (p : Publisher) (k : Nat)
    (hk1 : 1 ≤ k) (hk2 : k ≤ 9223372036854775808)
    (hok : (simulateEvents w p (k - 1)).panic = none) :
    (simulateEvents w p k).calls.length = k ∧
      (∀ c ∈ (simulateEvents w p k).calls, c.topic = consumeTopic) ∧
      (∃ e : event, e.ID.val = ((k - 1 : Nat) : Int) ∧
        (simulateEvents w p k).calls[k - 1]? =
          some ⟨consumeTopic, NewMessage (w.uuid (k - 1)) (marshalEvent e)⟩) ∧
      (simulateEvents w p k).calls.map
          (fun c => (unmarshalEvent c.msg.Payload).toOption.map (fun e => e.ID.val)) =
        (List.range k).map (fun (j : Nat) => some (Int.ofNat j)) := by
  have hcalls := simulateEvents_next_call w p (k - 1) hok
  have hk : k - 1 + 1 = k := by omega
  rw [hk] at hcalls
  refine ⟨by simp [hcalls], ?_, ?_, ?_⟩
  · intro c hc
    rw [hcalls, List.mem_map] at hc
    obtain ⟨j, _, hj⟩ := hc
    rw [← hj]
    rfl
  · refine ⟨⟨GoInt.wrap ((k - 1 : Nat) : Int)⟩, GoInt.wrap_val_of_lt (k - 1) (by omega), ?_⟩
    rw [hcalls, List.getElem?_map, List.getElem?_range (by omega)]
    rfl
  · rw [hcalls, List.map_map]
    apply List.map_congr_left
    intro j hj
    rw [List.mem_range] at hj
    rw [Function.comp_apply]
    exact producerCall_id w j (by omega)

/-- C4, witness: five passes in a world where no publish fails publish the ids
0, 1, 2, 3, 4 in this order. -/
theorem simulateEvents_five_passes :
    (1 ≤ 5 ∧ 5 ≤ 9223372036854775808 ∧ (simulateEvents quietWorld thePublisher (5 - 1)).panic = none) ∧
      (simulateEvents quietWorld thePublisher 5).calls.map
          (fun c => (unmarshalEvent c.msg.Payload).toOption.map (fun e => e.ID.val)) =
        (List.range 5).map (fun (j : Nat) => some (Int.ofNat j)) :=
  ⟨⟨by decide, by decide, quietWorld_never_panics thePublisher (5 - 1)⟩,
    (simulateEvents_ids_in_order quietWorld thePublisher 5 (by decide) (by decide)
      (quietWorld_never_panics thePublisher (5 - 1))).2.2.2⟩

/-- C4, counterexample to the claim as stated: in a world where no publish ever
fails, the envelope number 2^63 + 1 carries the id -2^63 (the `int` counter has
wrapped), not the id 2^63. -/
theorem simulateEvents_counter_wraps :
    (simulateEvents quietWorld thePublisher 9223372036854775808).panic = none ∧
      ((simulateEvents quietWorld thePublisher (9223372036854775808 + 1)).calls[9223372036854775808]?).map
          (fun c => c.msg.Payload) = some payloadMinInt := by
  have h := simulateEvents_next_call quietWorld thePublisher 9223372036854775808
    (quietWorld_never_panics thePublisher _)
  have hr : (List.range (9223372036854775808 + 1))[9223372036854775808]? = some 9223372036854775808 :=
    List.getElem?_range (by omega)
  refine ⟨quietWorld_never_panics thePublisher _, ?_⟩
  rw [h, List.getElem?_map, hr]
  exact congrArg some marshalEvent_wrapped

/-- C6: for every payload, when the publisher is created and the publish
succeeds, `KafkaProduce` makes exactly one publish call, on the topic `events`,
with a new message whose payload is the argument unchanged, whose id is the one
the generator hands out and whose metadata is empty, and then returns. -/
theorem KafkaProduce_publishes_once (w : World) (payload : Bytes)
    (hpub : w.newPublisherErr ⟨brokers⟩ = none)
    (hsend : w.publishErr thePublisher [] consumeTopic (NewMessage (w.uuid 0) payload) = none) :
    KafkaProduce w payload = ⟨[⟨consumeTopic, ⟨w.uuid 0, payload, []⟩⟩], .returned ()⟩ := by
  simp only [thePublisher, NewMessage] at hsend
  simp only [KafkaProduce, CreatePublisher, hpub, NewMessage, hsend]

/-- C6, witness: the payload `{"id":5}` in a world where nothing fails. -/
theorem KafkaProduce_publishes_once_witness :
    (quietWorld.newPublisherErr ⟨brokers⟩ = none ∧
        quietWorld.publishErr thePublisher [] consumeTopic
          (NewMessage (quietWorld.uuid 0) payloadFive) = none) ∧
      KafkaProduce quietWorld payloadFive =
        ⟨[⟨consumeTopic, ⟨quietWorld.uuid 0, payloadFive, []⟩⟩], .returned ()⟩ :=
  ⟨⟨rfl, rfl⟩, KafkaProduce_publishes_once quietWorld payloadFive rfl rfl⟩

/-- C7 (as amended): a failed publish is fatal to the caller.  When the publish
call fails inside `KafkaProduce`, `KafkaProduce` panics with the error of the
publish; when it fails inside the loop of `simulateEvents`, the loop ends in a
panic with that error and makes no further publish call. -/
theorem publish_failure_panics (w : World) :
    (∀ payload err, w.newPublisherErr ⟨brokers⟩ = none →
        w.publishErr thePublisher [] consumeTopic (NewMessage (w.uuid 0) payload) = some err →
        (KafkaProduce w payload).outcome = .panicked err) ∧
      (∀ p n err, (simulateEvents w p n).panic = none →
        w.publishErr p (simulateEvents w p n).calls consumeTopic (producerCall w n).msg = some err →
        (simulateEvents w p (n + 1)).panic = some err ∧
          ∀ k, simulateEvents w p (n + 1 + k) = simulateEvents w p (n + 1)) := by
  refine ⟨?_, ?_⟩
  · intro payload err hpub hsend
    simp only [thePublisher] at hsend
    simp only [KafkaProduce, CreatePublisher, hpub, hsend]
  · intro p n err hok hsend
    have hp := simulateEvents_publish_fails w p n err hok hsend
    exact ⟨hp, fun k => simulateEvents_after_panic w p (n + 1) k err hp⟩

/-- C7, witness: with a broker that refuses every publish, `KafkaProduce` panics
with the broker's error, and so does the first pass of the producer loop. -/
theorem publish_failure_panics_witness :
    (KafkaProduce deafWorld payloadFive).outcome = .panicked (.transport 1) ∧
      (simulateEvents deafWorld thePublisher (0 + 1)).panic = some (.transport 1) :=
  ⟨(publish_failure_panics deafWorld).1 payloadFive (.transport 1) rfl rfl,
    ((publish_failure_panics deafWorld).2 thePublisher 0 (.transport 1) rfl rfl).1⟩

/-- C7, counterexample to the claim as stated: with a broker that refuses the
publish, `KafkaProduce` does not return to its caller (it panics), and the
producer loop is ended by a panic after its first call. -/
theorem publish_failure_aborts_caller :
    KafkaProduce deafWorld payloadFive =
        ⟨[⟨consumeTopic, NewMessage (deafWorld.uuid 0) payloadFive⟩], .panicked (.transport 1)⟩ ∧
      (KafkaProduce deafWorld payloadFive).outcome ≠ .returned () ∧
      (simulateEvents deafWorld thePublisher 3).panic = some (.transport 1) ∧
      (simulateEvents deafWorld thePublisher 3).calls.length = 1 := by
  decide

/-- C9: a failure at startup is fatal.  `CreatePublisher` panics exactly when
the publisher constructor returns an error, with that error, and otherwise
returns the publisher made for the package's brokers; `CreateSubscriber` panics
exactly when the subscriber constructor returns an error, with that error, and
otherwise returns a subscriber whose configuration holds exactly the
`consumerGroup` it was given; and when the construction of the router fails,
`Test` ends in a panic without having registered any handler (with the
router's error when publisher and subscriber could be created). -/
theorem startup_failure_is_fatal (w : World) (consumerGroup : GoString) :
    ((∃ err, CreatePublisher w = .panicked err) ↔ (∃ err, w.newPublisherErr ⟨brokers⟩ = some err)) ∧
      (∀ err, w.newPublisherErr ⟨brokers⟩ = some err → CreatePublisher w = .panicked err) ∧
      (w.newPublisherErr ⟨brokers⟩ = none → CreatePublisher w = .returned ⟨⟨brokers⟩⟩) ∧
      ((∃ err, CreateSubscriber w consumerGroup = .panicked err) ↔
        (∃ err, w.newSubscriberErr ⟨brokers, consumerGroup⟩ = some err)) ∧
      (∀ err, w.newSubscriberErr ⟨brokers, consumerGroup⟩ = some err →
        CreateSubscriber w consumerGroup = .panicked err) ∧
      (w.newSubscriberErr ⟨brokers, consumerGroup⟩ = none →
        ∃ s, CreateSubscriber w consumerGroup = .returned s ∧ s.config.ConsumerGroup = consumerGroup ∧
          s.config.Brokers = brokers) ∧
      (∀ err, w.newRouterErr = some err →
        (∃ e, (Test w).outcome = .panicked e) ∧ (Test w).trace.all (fun a => !a.isAddHandler) = true ∧
          (w.newPublisherErr ⟨brokers⟩ = none → w.newSubscriberErr ⟨brokers, handlerGroup⟩ = none →
            Test w = ⟨[], .panicked err⟩)) := by
  refine ⟨?_, ?_, ?_, ?_, ?_, ?_, ?_⟩
  · unfold CreatePublisher
    cases h : w.newPublisherErr ⟨brokers⟩ with
    | none => simp
    | some e => simp
  · intro err h
    simp only [CreatePublisher, h]
  · intro h
    simp only [CreatePublisher, h]
  · unfold CreateSubscriber
    cases h : w.newSubscriberErr ⟨brokers, consumerGroup⟩ with
    | none => simp
    | some e => simp
  · intro err h
    simp only [CreateSubscriber, h]
  · intro h
    exact ⟨⟨⟨brokers, consumerGroup⟩⟩, by simp only [CreateSubscriber, h], rfl, rfl⟩
  · intro err h
    unfold Test CreatePublisher CreateSubscriber
    cases h1 : w.newPublisherErr ⟨brokers⟩ with
    | some e => exact ⟨⟨e, rfl⟩, rfl, fun hc => by cases hc⟩
    | none =>
      cases h2 : w.newSubscriberErr ⟨brokers, handlerGroup⟩ with
      | some e => exact ⟨⟨e, rfl⟩, rfl, fun _ hc => by cases hc⟩
      | none =>
        simp only [h]
        exact ⟨⟨err, rfl⟩, rfl, fun _ _ => trivial⟩

/-- C9, witness: with no broker to reach, both helpers panic with the
constructor's error; with a router that cannot be built, `Test` panics with the
router's error and registers no handler. -/
theorem startup_failure_witness :
    CreatePublisher noBrokerWorld = .panicked (.transport 2) ∧
      CreateSubscriber noBrokerWorld handlerGroup = .panicked (.transport 2) ∧
      Test noRouterWorld = ⟨[], .panicked (.transport 3)⟩ :=
  ⟨(startup_failure_is_fatal noBrokerWorld handlerGroup).2.1 (.transport 2) rfl,
    (startup_failure_is_fatal noBrokerWorld handlerGroup).2.2.2.2.1 (.transport 2) rfl,
    ((startup_failure_is_fatal noRouterWorld handlerGroup).2.2.2.2.2.2 (.transport 3) rfl).2.2 rfl rfl⟩

/-- C8 (as amended): for clock readings of at most 48 bits and any two entropy
draws, `NewULID` returns strings of 26 characters, ten encoding the time
followed by sixteen encoding the entropy.  When the later call reads a strictly
later millisecond its string is strictly greater; when both calls read the same
millisecond the strings are ordered as the entropy draws are.  So for
`t1 ≤ t2` the later string is not smaller exactly when `t1 < t2` or the later
draw is not smaller than the earlier one. -/
theorem NewULID_order (t1 t2 : Nat) (e1 e2 : Entropy) (h1 : t1 ≤ maxTime) (h2 : t2 ≤ maxTime) :
    ∃ s1 s2, NewULID t1 (.ok e1) = .returned s1 ∧ NewULID t2 (.ok e2) = .returned s2 ∧
      s1 = base32 10 t1 ++ base32 16 e1.val ∧ s2 = base32 10 t2 ++ base32 16 e2.val ∧
      s1.length = 26 ∧ s2.length = 26 ∧
      (t1 < t2 → strLt s1 s2 = true) ∧
      (t1 = t2 → (strLt s1 s2 = true ↔ e1 < e2)) ∧
      (t1 ≤ t2 → (strLt s2 s1 = false ↔ (t1 < t2 ∨ e1 ≤ e2))) := by
  have hm : maxTime < 32 ^ 10 := by decide
  have he1 : e1.val < 32 ^ 16 := lt_of_lt_of_eq e1.isLt (by norm_num)
  have he2 : e2.val < 32 ^ 16 := lt_of_lt_of_eq e2.isLt (by norm_num)
  have hlt : t1 < t2 → strLt (base32 10 t1 ++ base32 16 e1.val) (base32 10 t2 ++ base32 16 e2.val) = true :=
    fun h => base32_lt 10 t1 t2 _ _ h (by omega)
  have hsame : t1 = t2 → (strLt (base32 10 t1 ++ base32 16 e1.val) (base32 10 t2 ++ base32 16 e2.val) = true
      ↔ e1 < e2) := by
    intro h
    subst h
    rw [strLt_append_left, base32_lt_iff 16 _ _ he1 he2]
    exact Iff.rfl
  refine ⟨_, _, NewULID_returns t1 e1 h1, NewULID_returns t2 e2 h2, rfl, rfl, ?_, ?_, hlt, hsame, ?_⟩
  · simp [base32_length]
  · simp [base32_length]
  · intro hle
    rcases Nat.lt_or_eq_of_le hle with h | h
    · have := strLt_asymm _ _ (hlt h)
      simp [this, h]
    · subst h
      rw [strLt_append_left]
      have hiff := base32_lt_iff 16 e2.val e1.val he2 he1
      constructor
      · intro hf
        right
        by_contra hn
        have : e2.val < e1.val := by
          have := lt_of_not_le hn
          exact this
        rw [hiff.2 this] at hf
        cases hf
      · intro hor
        rcases hor with hor | hor
        · omega
        · cases hs : strLt (base32 16 e2.val) (base32 16 e1.val) with
          | false => rfl
          | true =>
            have := hiff.1 hs
            have hle2 : e1.val ≤ e2.val := hor
            omega

/-- C8, witness: two calls one millisecond apart; the later string is greater
although its entropy draw is smaller. -/
theorem NewULID_order_witness :
    (1700000000000 ≤ maxTime ∧ 1700000000001 ≤ maxTime) ∧
      ∃ s1 s2, NewULID 1700000000000 (.ok entropyFive) = .returned s1 ∧
        NewULID 1700000000001 (.ok entropyThree) = .returned s2 ∧ strLt s1 s2 = true := by
  obtain ⟨s1, s2, hs1, hs2, _, _, _, _, hlt, _, _⟩ :=
    NewULID_order 1700000000000 1700000000001 entropyFive entropyThree (by decide) (by decide)
  exact ⟨⟨by decide, by decide⟩, s1, s2, hs1, hs2, hlt (by decide)⟩

/-- C8, counterexample to the claim as stated: two calls in the same
millisecond, the later one with the smaller entropy draw: the later string is
smaller than the earlier one. -/
theorem NewULID_not_monotonic_within_millisecond :
    NewULID 1700000000000 (.ok entropyFive) =
        .returned (base32 10 1700000000000 ++ base32 16 entropyFive.val) ∧
      NewULID 1700000000000 (.ok entropyThree) =
        .returned (base32 10 1700000000000 ++ base32 16 entropyThree.val) ∧
      strLt (base32 10 1700000000000 ++ base32 16 entropyThree.val)
        (base32 10 1700000000000 ++ base32 16 entropyFive.val) = true := by
  decide

end Watermill
